import Mathlib

/-!
Verification of the personal-spend ingestion and visualization pipeline.

The definitions below are a shallow embedding of the two source modules:
`cli/src/ingest.ts` (normalization, categorization, spend flow-graph) and
the web application module (income/outflow visualization aggregator).
JavaScript numbers are modelled as exact rationals, JS `Map`s as
insertion-ordered association lists, and the wall clock as an explicit
string parameter.
-/

set_option maxRecDepth 4000

/- The Batteries rational primitives are marked irreducible, which blocks
`decide` on closed rational computations; evaluation-by-reduction is sound
regardless, so restore the default reducibility for them. -/
set_option allowUnsafeReducibility true
attribute [semireducible] Rat.add Rat.mul Rat.inv Rat.sub Rat.ofScientific

namespace PersonalSpend

/-- JS whitespace class as used by the `\s` regex class and `trim` (ASCII part). -/
def isJsWs (c : Char) : Bool :=
  c = ' ' || c = '\t' || c = '\n' || c = '\r' || c = '\x0b' || c = '\x0c'

/-- Trim leading and trailing whitespace from a character list. -/
def listTrim (cs : List Char) : List Char :=
  ((cs.dropWhile isJsWs).reverse.dropWhile isJsWs).reverse

/-- Model of `String.prototype.trim`. -/
def jsTrim (s : String) : String := ⟨listTrim s.data⟩

/-- Collapse adjacent spaces into one (helper for the `\s+` → single space replace). -/
def squeeze : List Char → List Char
  | [] => []
  | [c] => [c]
  | a :: b :: rest =>
    if a = ' ' && b = ' ' then squeeze (b :: rest) else a :: squeeze (b :: rest)

/-- Model of `value.replace(/\s+/g, " ")`: every whitespace run becomes one space. -/
def collapseWs (cs : List Char) : List Char :=
  squeeze (cs.map fun c => if isJsWs c then ' ' else c)

/-- Model of `normalizeText`: collapse whitespace, trim, lowercase. -/
def normalizeText (s : String) : String :=
  ⟨(listTrim (collapseWs s.data)).map Char.toLower⟩

/-- Boolean test: `needle` occurs as a prefix of `hay` (character lists). -/
def isPrefixList : List Char → List Char → Bool
  | [], _ => true
  | _ :: _, [] => false
  | a :: as, b :: bs => a = b && isPrefixList as bs

/-- Model of `String.prototype.includes`: `needle` occurs contiguously in `hay`. -/
def containsSub (needle : List Char) : List Char → Bool
  | [] => needle.isEmpty
  | c :: rest => isPrefixList needle (c :: rest) || containsSub needle rest

/-- `hay.includes(needle)` on strings. -/
def strIncludes (hay needle : String) : Bool := containsSub needle.data hay.data

/-- Numeric value of a list of decimal digit characters (most significant first). -/
def digitsVal (ds : List Char) : ℕ :=
  ds.foldl (fun n c => n * 10 + (c.toNat - 48)) 0

/-- Model of `Number.parseFloat`: optional sign, digits, optional fraction and
exponent, longest valid prefix; `none` when no digit is found (JS `NaN`). -/
def parseFloatJS (cs0 : List Char) : Option ℚ :=
  let cs := cs0.dropWhile isJsWs
  let (sgn, cs) : ℤ × List Char :=
    match cs with
    | '-' :: r => (-1, r)
    | '+' :: r => (1, r)
    | _ => (1, cs)
  let ip := cs.takeWhile Char.isDigit
  let cs := cs.dropWhile Char.isDigit
  let (fp, cs) : List Char × List Char :=
    match cs with
    | '.' :: r => (r.takeWhile Char.isDigit, r.dropWhile Char.isDigit)
    | _ => ([], cs)
  if ip = [] && fp = [] then none
  else
    let mantissa : ℤ := sgn * ((digitsVal ip * 10 ^ fp.length + digitsVal fp : ℕ) : ℤ)
    let expv : ℤ :=
      match cs with
      | 'e' :: r | 'E' :: r =>
        let (es, r2) : ℤ × List Char :=
          match r with
          | '-' :: t => (-1, t)
          | '+' :: t => (1, t)
          | _ => (1, r)
        let ed := r2.takeWhile Char.isDigit
        if ed = [] then 0 else es * (digitsVal ed : ℤ)
      | _ => 0
    some (if 0 ≤ expv then mkRat (mantissa * ((10 ^ expv.toNat : ℕ) : ℤ)) (10 ^ fp.length)
      else mkRat mantissa (10 ^ fp.length * 10 ^ (-expv).toNat))

/-- The sign contributed by an optional leading `-` (JS `parseInt` step). -/
def signOfJS : List Char → ℤ
  | [] => 1
  | c :: _ => if c = '-' then -1 else 1

/-- Drop an optional leading sign character (JS `parseInt` step). -/
def dropSignJS : List Char → List Char
  | [] => []
  | c :: r => if c = '-' || c = '+' then r else c :: r

def parseIntJS (cs0 : List Char) : Option ℤ :=
  let cs := cs0.dropWhile isJsWs
  let ds := (dropSignJS cs).takeWhile Char.isDigit
  if ds = [] then none else some (signOfJS cs * (digitsVal ds : ℤ))

/-- Model of `String.prototype.split("/")` on character lists. -/
def splitSlash : List Char → List (List Char)
  | [] => [[]]
  | x :: rest =>
    match splitSlash rest with
    | [] => [[]]
    | p :: ps => if x = '/' then [] :: p :: ps else (x :: p) :: ps

/-- Model of `String.prototype.padStart(w, c)`. -/
def padStart (s : String) (w : ℕ) (c : Char) : String :=
  ⟨List.replicate (w - s.length) c ++ s.data⟩

/-- `Number(x.toFixed(2))`: round to two decimal places (ties toward `+∞`,
as the ECMAScript `toFixed` specification picks the larger candidate). -/
def round2 (q : ℚ) : ℚ := (round (q * 100) : ℚ) / 100

/-- `x.toFixed(2)` as a string (used only inside the id signature). -/
def qToFixed2 (q : ℚ) : String :=
  let n : ℤ := round (q * 100)
  let a := n.natAbs
  (if n < 0 then "-" else "") ++ toString (a / 100) ++ "." ++
    padStart (toString (a % 100)) 2 '0'

/-- Insertion-ordered association-list model of a JS `Map`: `set` replaces the
value of an existing key in place, otherwise appends the new key at the end. -/
def mset {β : Type} (m : List (String × β)) (k : String) (v : β) : List (String × β) :=
  match m with
  | [] => [(k, v)]
  | (k', v') :: rest => if k' = k then (k, v) :: rest else (k', v') :: mset rest k v

/-- JS `Map.get`: value of the first (only) entry with the given key. -/
def mget? {β : Type} (m : List (String × β)) (k : String) : Option β :=
  match m with
  | [] => none
  | (k', v') :: rest => if k' = k then some v' else mget? rest k

/-- JS `Map.has`. -/
def mhas {β : Type} (m : List (String × β)) (k : String) : Bool := (mget? m k).isSome

/-- Insert `x` after every element `y` with `keep y x = true` (stable insertion). -/
def insertSorted {α : Type} (keep : α → α → Bool) (x : α) : List α → List α
  | [] => [x]
  | y :: ys => if keep y x then y :: insertSorted keep x ys else x :: y :: ys

/-- Stable sort, modelling the (stable) `Array.prototype.sort`: `keep y x` holds
when the comparator would keep `y` before `x`. -/
def stableSortBy {α : Type} (keep : α → α → Bool) (l : List α) : List α :=
  l.foldl (fun acc x => insertSorted keep x acc) []

/-- Code-point comparison on strings, modelling `localeCompare` ascending order. -/
def charListLe : List Char → List Char → Bool
  | [], _ => true
  | _ :: _, [] => false
  | a :: as, b :: bs => if a = b then charListLe as bs else decide (a.toNat < b.toNat)

/-- `a` sorts at or before `b`. -/
def strLe (a b : String) : Bool := charListLe a.data b.data

/-- Uppercase a string (model of `toUpperCase` on ASCII data). -/
def jsToUpper (s : String) : String := ⟨s.data.map Char.toUpper⟩

/-! ## Data model of `cli/src/ingest.ts` -/

/-- `type Direction = "debit" | "credit" | "neutral"`. -/
inductive Direction
  | debit
  | credit
  | neutral
deriving DecidableEq

/-- The fields of a raw bank row accepted by `bankRowSchema` (required strings
plus optional string columns). -/
structure BankRow where
  bankAccount : String
  date : String
  narrative : String
  debitAmount : Option String
  creditAmount : Option String
  balance : Option String
  categories : Option String
  serial : Option String
deriving DecidableEq

/-- `NormalizedTransaction` without `category`/`categoryReason`
(the `Omit<NormalizedTransaction, "category" | "categoryReason">` base). -/
structure TxBase where
  id : String
  date : String
  accountId : String
  narrative : String
  narrativeNormalized : String
  merchant : String
  debitAmount : ℚ
  creditAmount : ℚ
  amount : ℚ
  direction : Direction
  balance : Option ℚ
  sourceCategory : String
deriving DecidableEq

/-- `NormalizedTransaction`. -/
structure NormalizedTransaction extends TxBase where
  category : String
  categoryReason : String
deriving DecidableEq

/-- The result record of the categorization engine. -/
structure CatResult where
  category : String
  reason : String
deriving DecidableEq

/-- `type CategoryRulesFile = { rules?: Record<string, string[]> }`, with the
record in declaration order and a missing field modelled as the empty list. -/
structure CategoryRulesFile where
  rules : List (String × List String)
deriving DecidableEq

/-- `type OverridesFile`, both records in declaration order. -/
structure OverridesFile where
  overrides : List (String × String)
  narrative_contains : List (String × String)
deriving DecidableEq

/-! ## Parsers of `cli/src/ingest.ts` -/

/-- `parseMoney`: empty/missing input is `0`; otherwise strip `$`, `,` and
whitespace, and coerce an unparsable remainder to `0`. -/
def parseMoney (value : Option String) : ℚ :=
  match value with
  | none => 0
  | some v =>
    if v = "" then 0
    else
      let cleaned : String := ⟨v.data.filter fun c => !(c = '$' || c = ',' || isJsWs c)⟩
      if cleaned = "" then 0
      else
        match parseFloatJS cleaned.data with
        | some numeric => numeric
        | none => 0

/-- `parseDate`: split the trimmed value on `/`; exactly three parts are
required and each must contain a parseable integer; errors model `throw`. -/
def parseDate (dateValue : String) : Except String String :=
  match splitSlash (jsTrim dateValue).data with
  | [dayStr, monthStr, yearStr] =>
    match parseIntJS dayStr, parseIntJS monthStr, parseIntJS yearStr with
    | some day, some month, some year =>
      .ok (padStart (toString year) 4 '0' ++ "-" ++ padStart (toString month) 2 '0' ++
        "-" ++ padStart (toString day) 2 '0')
    | _, _, _ => .error ("Invalid date parts: " ++ dateValue)
  | _ => .error ("Unsupported date format: " ++ dateValue)

/-! ### Merchant inference

Each regex of `inferMerchant` is anchored at the start and applied once, in
source order; a matcher returns the remainder after the matched prefix. -/

/-- Case-insensitive literal prefix; returns the remainder on success. -/
def matchCI : List Char → List Char → Option (List Char)
  | [], rest => some rest
  | _ :: _, [] => none
  | p :: ps, c :: cs => if p.toLower = c.toLower then matchCI ps cs else none

/-- One character from a class. -/
def matchOne (f : Char → Bool) : List Char → Option (List Char)
  | [] => none
  | c :: cs => if f c then some cs else none

/-- One or more characters from a class (maximal run). -/
def matchRun (f : Char → Bool) (cs : List Char) : Option (List Char) :=
  if cs.takeWhile f = [] then none else some (cs.dropWhile f)

/-- `^DEPOSIT[-\s]OSKO PAYMENT\s+\d+\s+` and its `WITHDRAWAL` sibling. -/
def oskoPat (kind : String) (cs : List Char) : Option (List Char) :=
  (matchCI kind.data cs).bind fun r1 =>
  (matchOne (fun c => c = '-' || isJsWs c) r1).bind fun r2 =>
  (matchCI "OSKO PAYMENT".data r2).bind fun r3 =>
  (matchRun isJsWs r3).bind fun r4 =>
  (matchRun Char.isDigit r4).bind fun r5 =>
  matchRun isJsWs r5

/-- `^WITHDRAWAL MOBILE\s+\d+\s+TFR\s+`. -/
def withdrawalMobilePat (cs : List Char) : Option (List Char) :=
  (matchCI "WITHDRAWAL MOBILE".data cs).bind fun r1 =>
  (matchRun isJsWs r1).bind fun r2 =>
  (matchRun Char.isDigit r2).bind fun r3 =>
  (matchRun isJsWs r3).bind fun r4 =>
  (matchCI "TFR".data r4).bind fun r5 =>
  matchRun isJsWs r5

/-- `^PAYMENT BY AUTHORITY TO\s+`. -/
def paymentByAuthorityPat (cs : List Char) : Option (List Char) :=
  (matchCI "PAYMENT BY AUTHORITY TO".data cs).bind fun r1 =>
  matchRun isJsWs r1

/-- `^DEPOSIT\s+`. -/
def depositPat (cs : List Char) : Option (List Char) :=
  (matchCI "DEPOSIT".data cs).bind fun r1 =>
  matchRun isJsWs r1

/-- `s.replace(pattern, "")` for a start-anchored pattern: strip the matched
prefix when the pattern matches, otherwise leave the string unchanged. -/
def stripPat (pat : List Char → Option (List Char)) (cs : List Char) : List Char :=
  match pat cs with
  | some rest => rest
  | none => cs

/-- `inferMerchant`: collapse whitespace, strip the five known bank prefixes in
order (each at most once), trim; fall back to the trimmed narrative when the
result is empty. -/
def inferMerchant (narrative : String) : String :=
  let cleaned := listTrim
    (stripPat depositPat
      (stripPat paymentByAuthorityPat
        (stripPat withdrawalMobilePat
          (stripPat (oskoPat "WITHDRAWAL")
            (stripPat (oskoPat "DEPOSIT") (collapseWs narrative.data))))))
  if cleaned = [] then jsTrim narrative else ⟨cleaned⟩

/-- `hashString`: 32-bit `h * 31 + code` rolling hash, rendered as
`tx_` plus eight lowercase hex digits. -/
def hashString (input : String) : String :=
  let hash : ℕ := input.data.foldl (fun h c => (h * 31 + c.toNat) % 4294967296) 0
  "tx_" ++ padStart ⟨Nat.toDigits 16 hash⟩ 8 '0'

instance {α β : Type} [DecidableEq α] [DecidableEq β] : DecidableEq (Except α β) :=
  fun a b =>
    match a, b with
    | .ok x, .ok y =>
      if h : x = y then .isTrue (congrArg Except.ok h)
      else .isFalse fun hh => h (Except.ok.inj hh)
    | .error x, .error y =>
      if h : x = y then .isTrue (congrArg Except.error h)
      else .isFalse fun hh => h (Except.error.inj hh)
    | .ok _, .error _ => .isFalse fun hh => Except.noConfusion hh
    | .error _, .ok _ => .isFalse fun hh => Except.noConfusion hh

/-! ## Categorization engine (`buildCategoryMatcher`) -/

/-- The trimmed id-override pairs prepared by `buildCategoryMatcher`. -/
def overridesById (overridesFile : OverridesFile) : List (String × String) :=
  overridesFile.overrides.map fun p => (jsTrim p.1, jsTrim p.2)

/-- The normalized narrative-override pairs prepared by `buildCategoryMatcher`. -/
def narrativeOverrides (overridesFile : OverridesFile) : List (String × String) :=
  overridesFile.narrative_contains.map fun p => (normalizeText p.1, jsTrim p.2)

/-- The rule entries with normalized needles prepared by `buildCategoryMatcher`. -/
def ruleEntries (rulesFile : CategoryRulesFile) : List (String × List String) :=
  rulesFile.rules.map fun p => (p.1, p.2.map normalizeText)

/-- The `for (const entry of ruleEntries)` loop: first category (in declaration
order) one of whose needles (in declaration order) occurs in the narrative. -/
def findRuleMatch (narr : String) : List (String × List String) → Option (String × String)
  | [] => none
  | (category, needles) :: rest =>
    match needles.find? (fun needle => strIncludes narr needle) with
    | some matchedNeedle => some (category, matchedNeedle)
    | none => findRuleMatch narr rest

/-- `buildCategoryMatcher(...).categoryFor`: the categorization engine. -/
def buildCategoryMatcher (rulesFile : CategoryRulesFile) (overridesFile : OverridesFile)
    (transaction : TxBase) : CatResult :=
  match (overridesById overridesFile).find? (fun p => p.1 == transaction.id) with
  | some idOverride => { category := idOverride.2, reason := "override:id" }
  | none =>
  match (narrativeOverrides overridesFile).find?
      (fun p => strIncludes transaction.narrativeNormalized p.1) with
  | some narrativeOverride =>
    { category := narrativeOverride.2
      reason := "override:narrative:" ++ narrativeOverride.1 }
  | none =>
  match findRuleMatch transaction.narrativeNormalized (ruleEntries rulesFile) with
  | some ruleMatch => { category := ruleMatch.1, reason := "rule:" ++ ruleMatch.2 }
  | none =>
  if transaction.direction = .credit then
    { category := "Income", reason := "fallback:credit" }
  else if jsToUpper transaction.sourceCategory = "INT" then
    { category := "Interest", reason := "fallback:sourceCategory=INT" }
  else
    { category := "Uncategorized", reason := "fallback:uncategorized" }

/-! ### The documented precedence chain, stated from the specification

`categoryForSpec` renders §4.3 of the specification word by word: six steps
tried in strict order, each yielding an optional result, the first hit
winning.  It is compared with the code-derived `buildCategoryMatcher`. -/

/-- Step 1: exact id match in the override-by-id map (declaration order). -/
def specIdOverrideStep (idOverrides : List (String × String)) (txid : String) :
    Option CatResult :=
  match idOverrides with
  | [] => none
  | (i, c) :: rest =>
    if i = txid then some ⟨c, "override:id"⟩ else specIdOverrideStep rest txid

/-- Step 2: first narrative-override needle contained in the narrative. -/
def specNarrativeOverrideStep (narrOverrides : List (String × String)) (narr : String) :
    Option CatResult :=
  match narrOverrides with
  | [] => none
  | (needle, c) :: rest =>
    if strIncludes narr needle then some ⟨c, "override:narrative:" ++ needle⟩
    else specNarrativeOverrideStep rest narr

/-- First needle of one rule's needle list contained in the narrative. -/
def specNeedleScan : List String → String → Option String
  | [], _ => none
  | n :: rest, narr => if strIncludes narr n then some n else specNeedleScan rest narr

/-- Step 3: first category, in declaration order, one of whose needles is
contained in the narrative. -/
def specRuleStep (rules : List (String × List String)) (narr : String) :
    Option CatResult :=
  match rules with
  | [] => none
  | (category, needles) :: rest =>
    match specNeedleScan needles narr with
    | some needle => some ⟨category, "rule:" ++ needle⟩
    | none => specRuleStep rest narr

/-- Step 4: credit fallback. -/
def specCreditFallback (transaction : TxBase) : Option CatResult :=
  if transaction.direction = .credit then some ⟨"Income", "fallback:credit"⟩ else none

/-- Step 5: interest fallback on `sourceCategory == "INT"` (case-insensitive). -/
def specInterestFallback (transaction : TxBase) : Option CatResult :=
  if jsToUpper transaction.sourceCategory = "INT" then
    some ⟨"Interest", "fallback:sourceCategory=INT"⟩
  else none

/-- §4.3: the six steps tried in strict order; step 6 is the default. -/
def categoryForSpec (idOverrides narrOverrides : List (String × String))
    (rules : List (String × List String)) (transaction : TxBase) : CatResult :=
  match specIdOverrideStep idOverrides transaction.id with
  | some r => r
  | none =>
  match specNarrativeOverrideStep narrOverrides transaction.narrativeNormalized with
  | some r => r
  | none =>
  match specRuleStep rules transaction.narrativeNormalized with
  | some r => r
  | none =>
  match specCreditFallback transaction with
  | some r => r
  | none =>
  match specInterestFallback transaction with
  | some r => r
  | none => ⟨"Uncategorized", "fallback:uncategorized"⟩

/-! ## Transaction normalizer (`normalizeTransactions`) -/

/-- `const amount = debitAmount > 0 ? debitAmount : creditAmount > 0 ? -creditAmount : 0`. -/
def derivedAmount (debitAmount creditAmount : ℚ) : ℚ :=
  if debitAmount > 0 then debitAmount else if creditAmount > 0 then -creditAmount else 0

/-- `const direction = debitAmount > 0 ? "debit" : creditAmount > 0 ? "credit" : "neutral"`. -/
def derivedDirection (debitAmount creditAmount : ℚ) : Direction :=
  if debitAmount > 0 then .debit else if creditAmount > 0 then .credit else .neutral

/-- The body of the `rows.map` callback in `normalizeTransactions`, for one row
at a given index; a date-parse failure aborts the run. -/
def normalizeRow (categoryFor : TxBase → CatResult) (index : ℕ) (row : BankRow) :
    Except String NormalizedTransaction :=
  let debitAmount := parseMoney row.debitAmount
  let creditAmount := parseMoney row.creditAmount
  let amount : ℚ := derivedAmount debitAmount creditAmount
  let direction : Direction := derivedDirection debitAmount creditAmount
  let narrative := jsTrim row.narrative
  let narrativeNormalized := normalizeText narrative
  let idSignature := String.intercalate "|"
    [jsTrim row.date, jsTrim row.bankAccount, narrativeNormalized,
      qToFixed2 debitAmount, qToFixed2 creditAmount,
      match row.serial with
      | some serial => if jsTrim serial = "" then toString index else jsTrim serial
      | none => toString index]
  let id := hashString idSignature
  match parseDate row.date with
  | .error e => .error e
  | .ok date =>
    let baseTransaction : TxBase :=
      { id
        date
        accountId := jsTrim row.bankAccount
        narrative
        narrativeNormalized
        merchant := inferMerchant narrative
        debitAmount
        creditAmount
        amount
        direction
        balance :=
          match row.balance with
          | some b => if b = "" then none else some (parseMoney (some b))
          | none => none
        sourceCategory := jsTrim ((row.categories).getD "") }
    let categorization := categoryFor baseTransaction
    .ok { baseTransaction with
            category := categorization.category
            categoryReason := categorization.reason }

/-- `normalizeTransactions`: normalize every row in order (index-aware map);
the first date error aborts the whole run. -/
def normalizeTransactions (rows : List BankRow) (categoryFor : TxBase → CatResult) :
    Except String (List NormalizedTransaction) :=
  (rows.enum.mapM fun p => normalizeRow categoryFor p.1 p.2)

/-! ## Spend flow-graph builder (`buildSankeyData`) -/

structure SankeyNode where
  name : String
deriving DecidableEq

structure SankeyLink where
  source : ℕ
  target : ℕ
  value : ℚ
deriving DecidableEq

structure SankeySummary where
  totalSpend : ℚ
  transactionCount : ℕ
deriving DecidableEq

/-- The full record returned by `buildSankeyData`; the `generatedAt` timestamp
is the wall-clock reading at build time, taken as an explicit input. -/
structure SankeyData where
  generatedAt : String
  currency : String
  nodes : List SankeyNode
  links : List SankeyLink
  summary : SankeySummary
deriving DecidableEq

def EXCLUDED_SPEND_CATEGORIES : List String := ["Income", "Transfers"]

/-- The spend filter: debit direction, positive amount, category not excluded. -/
def isSpendTransaction (t : NormalizedTransaction) : Bool :=
  t.direction == .debit && decide (0 < t.amount) &&
    !(EXCLUDED_SPEND_CATEGORIES.contains t.category)

def spendTransactions (transactions : List NormalizedTransaction) :
    List NormalizedTransaction :=
  transactions.filter isSpendTransaction

/-- `categoryTotals`: per-category sum of amounts, in first-seen order. -/
def spendCategoryTotals (transactions : List NormalizedTransaction) : List (String × ℚ) :=
  (spendTransactions transactions).foldl
    (fun m t => mset m t.category ((mget? m t.category).getD 0 + t.amount)) []

/-- `merchantTotalsByCategory`: per-category, per-merchant sums, both levels in
first-seen order. -/
def merchantTotalsByCategory (transactions : List NormalizedTransaction) :
    List (String × List (String × ℚ)) :=
  (spendTransactions transactions).foldl
    (fun m t =>
      let m := if mhas m t.category then m else mset m t.category []
      match mget? m t.category with
      | none => m
      | some merchantTotals =>
        mset m t.category
          (mset merchantTotals t.merchant ((mget? merchantTotals t.merchant).getD 0 + t.amount)))
    []

/-- `sortedCategories`: the category totals sorted by `localeCompare`. -/
def sortedSpendCategories (transactions : List NormalizedTransaction) : List (String × ℚ) :=
  stableSortBy (fun a b => strLe a.1 b.1) (spendCategoryTotals transactions)

/-- Node list and node-index map after the root node is planted. -/
def sankeyInit : List SankeyNode × List (String × ℕ) :=
  ([⟨"Total Spend"⟩], [("Total Spend", 0)])

/-- Node list and node-index map after the category loop. -/
def sankeyAfterCategories (transactions : List NormalizedTransaction) :
    List SankeyNode × List (String × ℕ) :=
  (sortedSpendCategories transactions).foldl
    (fun st p => (st.1 ++ [⟨p.1⟩], mset st.2 p.1 st.1.length)) sankeyInit

/-- One iteration of the merchant-node loop: skip names that already have a node. -/
def sankeyMerchantStep (st : List SankeyNode × List (String × ℕ)) (merchant : String) :
    List SankeyNode × List (String × ℕ) :=
  if mhas st.2 merchant then st else (st.1 ++ [⟨merchant⟩], mset st.2 merchant st.1.length)

/-- Node list and node-index map after the merchant loop. -/
def sankeyAfterMerchants (transactions : List NormalizedTransaction) :
    List SankeyNode × List (String × ℕ) :=
  (merchantTotalsByCategory transactions).foldl
    (fun st p => p.2.foldl (fun st q => sankeyMerchantStep st q.1) st)
    (sankeyAfterCategories transactions)

def sankeyNodes (transactions : List NormalizedTransaction) : List SankeyNode :=
  (sankeyAfterMerchants transactions).1

def sankeyNodeIndex (transactions : List NormalizedTransaction) : List (String × ℕ) :=
  (sankeyAfterMerchants transactions).2

/-- One iteration of the link loop for a category `p`: a root link, then the
links of the category's merchants in sorted order; lookups that come back
`undefined` are skipped. -/
def sankeyLinkStep (idx : List (String × ℕ)) (merch : List (String × List (String × ℚ)))
    (links : List SankeyLink) (p : String × ℚ) : List SankeyLink :=
  match mget? idx "Total Spend", mget? idx p.1 with
  | some source, some target =>
    let links := links ++ [⟨source, target, round2 p.2⟩]
    match mget? merch p.1 with
    | none => links
    | some merchants =>
      (stableSortBy (fun a b => strLe a.1 b.1) merchants).foldl
        (fun links q =>
          match mget? idx q.1 with
          | none => links
          | some merchantIndex => links ++ [⟨target, merchantIndex, round2 q.2⟩])
        links
  | _, _ => links

/-- The link loop over the sorted categories. -/
def sankeyLinks (transactions : List NormalizedTransaction) : List SankeyLink :=
  (sortedSpendCategories transactions).foldl
    (sankeyLinkStep (sankeyNodeIndex transactions) (merchantTotalsByCategory transactions))
    []

/-- `totalSpend`: the reduce over the category totals map. -/
def sankeyTotalSpend (transactions : List NormalizedTransaction) : ℚ :=
  (spendCategoryTotals transactions).foldl (fun sum p => sum + p.2) 0

/-- `buildSankeyData`, with the wall clock passed in as `now`. -/
def buildSankeyData (transactions : List NormalizedTransaction) (now : String) : SankeyData :=
  { generatedAt := now
    currency := "AUD"
    nodes := sankeyNodes transactions
    links := sankeyLinks transactions
    summary :=
      { totalSpend := round2 (sankeyTotalSpend transactions)
        transactionCount := (spendTransactions transactions).length } }

/-! ## Income/outflow aggregator (`buildVisualization` in the web module) -/

/-- The transaction shape consumed by the web module. -/
structure RawTransaction where
  id : String
  date : String
  accountId : String
  merchant : String
  narrative : String
  amount : ℚ
  direction : Direction
  category : String
  categoryReason : String
deriving DecidableEq

inductive VizNodeKind
  | income
  | total
  | category
  | savings
deriving DecidableEq

inductive VizLinkKind
  | income
  | category
  | savings
deriving DecidableEq

structure VizNode where
  name : String
  kind : VizNodeKind
  color : String
  value : ℚ
  percent : Option ℚ
  labelMain : Option String
  labelSub : Option String
deriving DecidableEq

structure VizLink where
  source : ℕ
  target : ℕ
  value : ℚ
  color : String
  kind : VizLinkKind
deriving DecidableEq

structure VizData where
  nodes : List VizNode
  links : List VizLink
deriving DecidableEq

structure AccountStat where
  source : String
  total : ℚ
  percent : ℚ
  color : String
deriving DecidableEq

structure CategoryStat where
  category : String
  total : ℚ
  percent : ℚ
  count : ℕ
  color : String
deriving DecidableEq

structure BuildVizResult where
  sankey : VizData
  totalIncome : ℚ
  totalSpend : ℚ
  savings : ℚ
  spendCount : ℕ
  incomeStats : List AccountStat
  categoryStats : List CategoryStat
  outflowCount : ℕ
deriving DecidableEq

def EXCLUDED_CATEGORIES : List String := ["Transfers", "Income"]

def CATEGORY_COLORS : List String :=
  ["#36b8ac", "#6b67f2", "#8f45e8", "#35bf72", "#8a62de", "#f48b2b", "#3d73e6",
    "#eb59a7", "#2ca2f6", "#ef5e4a", "#fc845b", "#8f9eb4", "#79c81d", "#d18f2f"]

def ACCOUNT_COLORS : List String := ["#2f9ef6", "#4db7ff", "#18c5d5"]

def EMPTY_VIZ : BuildVizResult :=
  { sankey := ⟨[], []⟩
    totalIncome := 0
    totalSpend := 0
    savings := 0
    spendCount := 0
    incomeStats := []
    categoryStats := []
    outflowCount := 0 }

/-- Model of the external `Intl.NumberFormat` currency formatter: an injective
stand-in rendering the code and two decimals (the exact locale text is a
collaborator concern and never branched on). -/
def formatCurrency (value : ℚ) (currency : String) : String :=
  currency ++ " " ++ qToFixed2 value

/-- `formatPercent`. -/
def formatPercent (value : ℚ) : String :=
  if 0 < value ∧ value < 1 / 100 then "<1%"
  else toString (round (value * 100) : ℤ) ++ "%"

def categorizedIncomeTransactions (transactions : List RawTransaction) :
    List RawTransaction :=
  transactions.filter fun t =>
    t.direction == .credit && decide (t.amount < 0) && t.category == "Income"

def fallbackIncomeTransactions (transactions : List RawTransaction) :
    List RawTransaction :=
  transactions.filter fun t =>
    t.direction == .credit && decide (t.amount < 0) && !(t.category == "Transfers")

def incomeTransactions (transactions : List RawTransaction) : List RawTransaction :=
  if (categorizedIncomeTransactions transactions).length > 0 then
    categorizedIncomeTransactions transactions
  else fallbackIncomeTransactions transactions

/-- `const sourceName = transaction.merchant || transaction.narrative || "Income"`. -/
def incomeSourceName (t : RawTransaction) : String :=
  if t.merchant ≠ "" then t.merchant
  else if t.narrative ≠ "" then t.narrative else "Income"

/-- `incomeBySource`: absolute amounts grouped by merchant (falling back to
narrative, then to the literal `Income`), in first-seen order. -/
def incomeBySource (transactions : List RawTransaction) : List (String × ℚ) :=
  (incomeTransactions transactions).foldl
    (fun m t =>
      mset m (incomeSourceName t) ((mget? m (incomeSourceName t)).getD 0 + |t.amount|))
    []

/-- `rawIncomeSources`: the sources sorted descending by total (stable). -/
def rawIncomeSources (transactions : List RawTransaction) : List (String × ℚ) :=
  stableSortBy (fun a b => decide (b.2 ≤ a.2)) (incomeBySource transactions)

def otherIncomeTotal (transactions : List RawTransaction) : ℚ :=
  ((rawIncomeSources transactions).drop 3).foldl (fun sum p => sum + p.2) 0

/-- `compactIncomeSources`: top three sources plus, when a positive long tail
exists, one synthetic `Other Income` bucket. -/
def compactIncomeSources (transactions : List RawTransaction) : List (String × ℚ) :=
  let kept := (rawIncomeSources transactions).take 3
  if (rawIncomeSources transactions).length > 3 then
    if otherIncomeTotal transactions > 0 then
      kept ++ [("Other Income", otherIncomeTotal transactions)]
    else kept
  else kept

def vizTotalIncome (transactions : List RawTransaction) : ℚ :=
  (compactIncomeSources transactions).foldl (fun sum p => sum + p.2) 0

def vizIncomeStats (transactions : List RawTransaction) : List AccountStat :=
  (compactIncomeSources transactions).enum.map fun p =>
    { source := p.2.1
      total := p.2.2
      percent :=
        if vizTotalIncome transactions > 0 then p.2.2 / vizTotalIncome transactions else 0
      color := ACCOUNT_COLORS.getD (p.1 % ACCOUNT_COLORS.length) "" }

def vizSpendTransactions (transactions : List RawTransaction) : List RawTransaction :=
  transactions.filter fun t =>
    t.direction == .debit && decide (0 < t.amount) &&
      !(EXCLUDED_CATEGORIES.contains t.category)

def vizTotalSpend (transactions : List RawTransaction) : ℚ :=
  (vizSpendTransactions transactions).foldl (fun sum t => sum + t.amount) 0

def vizSavings (transactions : List RawTransaction) : ℚ :=
  max 0 (vizTotalIncome transactions - vizTotalSpend transactions)

/-- One step of the web module's `categoryTotals` accumulation. -/
def vizCatStep (m : List (String × (ℚ × ℕ))) (t : RawTransaction) :
    List (String × (ℚ × ℕ)) :=
  match mget? m t.category with
  | some existing => mset m t.category (existing.1 + t.amount, existing.2 + 1)
  | none => mset m t.category (t.amount, 1)

/-- `categoryTotals` of the web module: per-category `(total, count)`. -/
def vizCategoryTotals (transactions : List RawTransaction) : List (String × (ℚ × ℕ)) :=
  (vizSpendTransactions transactions).foldl vizCatStep []

def vizCategoryStats (transactions : List RawTransaction) : List CategoryStat :=
  (stableSortBy (fun a b => decide (b.2.1 ≤ a.2.1)) (vizCategoryTotals transactions)).enum.map
    fun p =>
      { category := p.2.1
        total := p.2.2.1
        count := p.2.2.2
        percent :=
          if vizTotalSpend transactions > 0 then p.2.2.1 / vizTotalSpend transactions else 0
        color := CATEGORY_COLORS.getD (p.1 % CATEGORY_COLORS.length) "" }

/-- `outflowStats`: the category stats plus, when savings is positive, one
synthetic `Savings` bucket with zero count. -/
def vizOutflowStats (transactions : List RawTransaction) : List CategoryStat :=
  vizCategoryStats transactions ++
    (if vizSavings transactions > 0 then
      [{ category := "Savings"
         total := vizSavings transactions
         count := 0
         percent :=
           if vizTotalIncome transactions > 0 then
             vizSavings transactions / vizTotalIncome transactions
           else 0
         color := "#49d3a2" }]
    else [])

def incomeNodeOf (currency : String) (income : AccountStat) : VizNode :=
  { name := income.source
    kind := .income
    color := income.color
    value := income.total
    percent := some income.percent
    labelMain := some income.source
    labelSub := some (formatCurrency income.total currency ++ " | " ++
      formatPercent income.percent) }

def totalIncomeNodeOf (transactions : List RawTransaction) (currency : String) : VizNode :=
  { name := "Total Income"
    kind := .total
    color := "#7f8b98"
    value := vizTotalIncome transactions
    percent := some 1
    labelMain := some "Total Income"
    labelSub := some (formatCurrency (vizTotalIncome transactions) currency) }

def outflowNodeOf (transactions : List RawTransaction) (currency : String)
    (outflow : CategoryStat) : VizNode :=
  { name := outflow.category
    kind := if outflow.category == "Savings" then .savings else .category
    color := outflow.color
    value := outflow.total
    percent :=
      some (if vizTotalIncome transactions > 0 then
        outflow.total / vizTotalIncome transactions else 0)
    labelMain := some outflow.category
    labelSub := some (formatCurrency outflow.total currency ++ " | " ++
      formatPercent (if vizTotalIncome transactions > 0 then
        outflow.total / vizTotalIncome transactions else 0)) }

/-- The node-index key used for an outflow bucket. -/
def outflowKey (outflow : CategoryStat) : String :=
  if outflow.category == "Savings" then "savings:bucket" else "category:" ++ outflow.category

/-- The node array and node index after all three pushes (income sources,
`Total Income` hub, outflow buckets). -/
def vizNodesState (transactions : List RawTransaction) (currency : String) :
    List VizNode × List (String × ℕ) :=
  let st0 := (vizIncomeStats transactions).foldl
    (fun st income =>
      (st.1 ++ [incomeNodeOf currency income],
        mset st.2 ("income:" ++ income.source) st.1.length))
    ([], [])
  let st1 := (st0.1 ++ [totalIncomeNodeOf transactions currency],
    mset st0.2 "total:income" st0.1.length)
  (vizOutflowStats transactions).foldl
    (fun st outflow =>
      (st.1 ++ [outflowNodeOf transactions currency outflow],
        mset st.2 (outflowKey outflow) st.1.length))
    st1

/-- The link array: income-source links into the hub, then hub links into the
outflow buckets; `undefined` lookups are skipped. -/
def vizLinksFor (transactions : List RawTransaction) (idx : List (String × ℕ))
    (totalNodeIndex : ℕ) : List VizLink :=
  let incomeLinks := (vizIncomeStats transactions).foldl
    (fun ls income =>
      match mget? idx ("income:" ++ income.source) with
      | none => ls
      | some source =>
        ls ++ [⟨source, totalNodeIndex, round2 income.total, income.color, .income⟩])
    []
  (vizOutflowStats transactions).foldl
    (fun ls outflow =>
      match mget? idx (outflowKey outflow) with
      | none => ls
      | some target =>
        ls ++ [⟨totalNodeIndex, target, round2 outflow.total, outflow.color,
          if outflow.category == "Savings" then .savings else .category⟩])
    incomeLinks

/-- `buildVisualization`. -/
def buildVisualization (transactions : List RawTransaction) (currency : String) :
    BuildVizResult :=
  let st := vizNodesState transactions currency
  match mget? st.2 "total:income" with
  | none => EMPTY_VIZ
  | some totalNodeIndex =>
    { sankey := ⟨st.1, vizLinksFor transactions st.2 totalNodeIndex⟩
      totalIncome := round2 (vizTotalIncome transactions)
      totalSpend := round2 (vizTotalSpend transactions)
      savings := round2 (vizSavings transactions)
      spendCount := (vizSpendTransactions transactions).length
      incomeStats := vizIncomeStats transactions
      categoryStats := vizCategoryStats transactions
      outflowCount := (vizOutflowStats transactions).length }

/-! ## Concrete inputs used by counterexamples and witnesses -/

def emptyRules : CategoryRulesFile := ⟨[]⟩

def emptyOverrides : OverridesFile := ⟨[], []⟩

/-- A transaction whose raw row carried no debit and no credit amount:
`parseMoney` yields `0` for both, so the derived direction is `neutral`. -/
def neutralTx : TxBase :=
  { id := "tx_00000001", date := "2026-01-01", accountId := "a", narrative := "misc fee",
    narrativeNormalized := "misc fee", merchant := "misc fee", debitAmount := 0,
    creditAmount := 0, amount := 0, direction := .neutral, balance := none,
    sourceCategory := "" }

/-- An ordinary debit transaction with no matching configuration. -/
def plainDebitTx : TxBase :=
  { id := "tx_00000002", date := "2026-01-02", accountId := "a", narrative := "shop",
    narrativeNormalized := "shop", merchant := "shop", debitAmount := 5,
    creditAmount := 0, amount := 5, direction := .debit, balance := none,
    sourceCategory := "" }

/-- A raw row carrying both a debit and a credit amount. -/
def bothAmountsRow : BankRow :=
  { bankAccount := "123", date := "05/03/2026", narrative := "COLES 0931 SYDNEY",
    debitAmount := some "5", creditAmount := some "3", balance := none,
    categories := none, serial := none }

/-- An ordinary debit-only raw row. -/
def debitOnlyRow : BankRow :=
  { bankAccount := "123", date := "05/03/2026", narrative := "COLES 0931 SYDNEY",
    debitAmount := some "45.20", creditAmount := none, balance := none,
    categories := none, serial := none }

/-! ## Claim-side predicates (stated from the specification's words) -/

/-- Strict `DD/MM/YYYY` shape: two digits, slash, two digits, slash, four digits. -/
def isDDMMYYYYShape (s : String) : Bool :=
  match s.data with
  | [a, b, s1, c, d, s2, e, f, g, h] =>
    a.isDigit && b.isDigit && s1 = '/' && c.isDigit && d.isDigit && s2 = '/' &&
      e.isDigit && f.isDigit && g.isDigit && h.isDigit
  | _ => false

/-- The canonical `YYYY-MM-DD` rendering of a `DD/MM/YYYY`-shaped value. -/
def canonicalOfShape (s : String) : String :=
  match s.data with
  | [a, b, _, c, d, _, e, f, g, h] =>
    padStart (toString ((digitsVal [e, f, g, h] : ℕ) : ℤ)) 4 '0' ++ "-" ++
      padStart (toString ((digitsVal [c, d] : ℕ) : ℤ)) 2 '0' ++ "-" ++
      padStart (toString ((digitsVal [a, b] : ℕ) : ℤ)) 2 '0'
  | _ => ""

/-- The inputs the date parser accepts: exactly three slash-separated parts of
the trimmed value, each containing a leading integer. -/
def dateAccepted (s : String) : Bool :=
  match splitSlash (jsTrim s).data with
  | [d, m, y] => (parseIntJS d).isSome && (parseIntJS m).isSome && (parseIntJS y).isSome
  | _ => false

/-- A money string that is empty, or that after stripping currency symbols,
commas and whitespace is empty or has no numeric prefix. -/
def moneyMalformed (v : String) : Bool :=
  let cleaned : List Char := v.data.filter fun c => !(c = '$' || c = ',' || isJsWs c)
  cleaned.isEmpty || (parseFloatJS cleaned).isNone

/-- C3's reading of the aggregator invariant: savings is non-negative and
every percent value it emits — on income stats, category stats and graph
nodes — lies in the closed interval `[0, 1]`. -/
def vizPercentsClaim (r : BuildVizResult) : Bool :=
  decide (0 ≤ r.savings) &&
  r.incomeStats.all (fun s => decide (0 ≤ s.percent) && decide (s.percent ≤ 1)) &&
  r.categoryStats.all (fun s => decide (0 ≤ s.percent) && decide (s.percent ≤ 1)) &&
  r.sankey.nodes.all fun n =>
    match n.percent with
    | none => true
    | some p => decide (0 ≤ p) && decide (p ≤ 1)

/-- One income credit of 10 against a single spend category of 50: spending
exceeds income, so the category node's income-relative share is 5. -/
def vizExampleTxs : List RawTransaction :=
  [{ id := "i1", date := "2026-01-01", accountId := "acc", merchant := "job",
     narrative := "job", amount := -10, direction := .credit, category := "Income",
     categoryReason := "r" },
   { id := "i2", date := "2026-01-02", accountId := "acc", merchant := "shop",
     narrative := "shop", amount := 50, direction := .debit, category := "Food",
     categoryReason := "r" }]

/-- The claim's reading of the flow-graph node order: root, categories sorted,
then merchants obtained by iterating the categories in their sorted order with
each category's merchants sorted lexicographically, one node per distinct
name not already present. -/
def sankeyNodesClaim (transactions : List NormalizedTransaction) : List SankeyNode :=
  let cats := (sortedSpendCategories transactions).map Prod.fst
  let merchants := (sortedSpendCategories transactions).foldl
    (fun acc p =>
      match mget? (merchantTotalsByCategory transactions) p.1 with
      | none => acc
      | some merchantTotals =>
        (stableSortBy (fun a b => strLe a.1 b.1) merchantTotals).foldl
          (fun acc q =>
            if q.1 ∈ "Total Spend" :: cats ++ acc then acc else acc ++ [q.1])
          acc)
    []
  ⟨"Total Spend"⟩ :: (cats.map fun c => ⟨c⟩) ++ (merchants.map fun m => ⟨m⟩)

/-- The merchant-node names in the order the code actually appends them:
iterating the merchant-totals map in category first-seen order and, within a
category, merchants in first-seen order, skipping names that already have a
node. -/
def sankeyMerchantNamesInOrder (transactions : List NormalizedTransaction) : List String :=
  (merchantTotalsByCategory transactions).foldl
    (fun acc p =>
      p.2.foldl
        (fun acc q =>
          if q.1 ∈ "Total Spend" :: (sortedSpendCategories transactions).map Prod.fst ++ acc
          then acc else acc ++ [q.1])
        acc)
    []

/-- Two spend transactions whose categories first appear in the order `B`, `A`
(against their lexicographic order) with distinct merchants. -/
def sankeyExampleTxs : List NormalizedTransaction :=
  [{ id := "t1", date := "2026-01-01", accountId := "acc", narrative := "bm",
     narrativeNormalized := "bm", merchant := "bm", debitAmount := 1, creditAmount := 0,
     amount := 1, direction := .debit, balance := none, sourceCategory := "",
     category := "B", categoryReason := "r" },
   { id := "t2", date := "2026-01-02", accountId := "acc", narrative := "am",
     narrativeNormalized := "am", merchant := "am", debitAmount := 2, creditAmount := 0,
     amount := 2, direction := .debit, balance := none, sourceCategory := "",
     category := "A", categoryReason := "r" }]

/-- The claim's reading of merchant inference: try the five patterns in order
against the trimmed narrative and strip only the FIRST one that matches; when
none matches, return the trimmed narrative verbatim. -/
def inferMerchantClaim (narrative : String) : String :=
  let trimmed := listTrim narrative.data
  match oskoPat "DEPOSIT" trimmed with
  | some rest => ⟨rest⟩
  | none =>
  match oskoPat "WITHDRAWAL" trimmed with
  | some rest => ⟨rest⟩
  | none =>
  match withdrawalMobilePat trimmed with
  | some rest => ⟨rest⟩
  | none =>
  match paymentByAuthorityPat trimmed with
  | some rest => ⟨rest⟩
  | none =>
  match depositPat trimmed with
  | some rest => ⟨rest⟩
  | none => ⟨trimmed⟩

/-- No merchant prefix pattern matches the whitespace-collapsed narrative. -/
def noMerchantPatternMatches (narrative : String) : Bool :=
  (oskoPat "DEPOSIT" (collapseWs narrative.data)).isNone &&
  (oskoPat "WITHDRAWAL" (collapseWs narrative.data)).isNone &&
  (withdrawalMobilePat (collapseWs narrative.data)).isNone &&
  (paymentByAuthorityPat (collapseWs narrative.data)).isNone &&
  (depositPat (collapseWs narrative.data)).isNone

/-- The node index is rooted: `Total Spend` sits at position 0 with index 0,
and every other entry's index is at least 1. -/
def rootedIdx (idx : List (String × ℕ)) : Prop :=
  ∃ rest, idx = ("Total Spend", 0) :: rest ∧ ∀ p ∈ rest, 1 ≤ p.2

/-! ## Lemmas and claim theorems -/

theorem specIdOverrideStep_eq_find (l : List (String × String)) (txid : String) :
    specIdOverrideStep l txid =
      (l.find? fun p => p.1 == txid).map fun p => (⟨p.2, "override:id"⟩ : CatResult) := by
  induction l with
  | nil => rfl
  | cons hd tl ih =>
    by_cases h : hd.1 = txid
    · simp [specIdOverrideStep, List.find?_cons, h]
    · simp [specIdOverrideStep, List.find?_cons, h, ih]

theorem specNarrativeOverrideStep_eq_find (l : List (String × String)) (narr : String) :
    specNarrativeOverrideStep l narr =
      (l.find? fun p => strIncludes narr p.1).map
        fun p => (⟨p.2, "override:narrative:" ++ p.1⟩ : CatResult) := by
  induction l with
  | nil => rfl
  | cons hd tl ih =>
    by_cases h : strIncludes narr hd.1
    · simp [specNarrativeOverrideStep, List.find?_cons, h]
    · simp [specNarrativeOverrideStep, List.find?_cons, h, ih]

theorem specNeedleScan_eq_find (needles : List String) (narr : String) :
    specNeedleScan needles narr = needles.find? fun needle => strIncludes narr needle := by
  induction needles with
  | nil => rfl
  | cons hd tl ih =>
    by_cases h : strIncludes narr hd
    · simp [specNeedleScan, List.find?_cons, h]
    · simp [specNeedleScan, List.find?_cons, h, ih]

theorem specRuleStep_eq_findRuleMatch (rules : List (String × List String)) (narr : String) :
    specRuleStep rules narr =
      (findRuleMatch narr rules).map fun m => (⟨m.1, "rule:" ++ m.2⟩ : CatResult) := by
  induction rules with
  | nil => rfl
  | cons hd tl ih =>
    rw [show hd = (hd.1, hd.2) from rfl]
    rw [specRuleStep, findRuleMatch, specNeedleScan_eq_find]
    cases hfind : hd.2.find? fun needle => strIncludes narr needle with
    | none => simpa using ih
    | some needle => simp

/-- C1: for every normalized transaction and configuration, the categorization
engine returns exactly the result of the documented six-step chain — id
override, then narrative override, then rules, then credit fallback, then
interest fallback, then the uncategorized default — so an id-override match
beats narrative overrides, rules and fallbacks, and a narrative-override match
beats any rule match. -/
theorem categoryFor_is_documented_chain (rulesFile : CategoryRulesFile)
    (overridesFile : OverridesFile) (transaction : TxBase) :
    buildCategoryMatcher rulesFile overridesFile transaction =
      categoryForSpec (overridesById overridesFile) (narrativeOverrides overridesFile)
        (ruleEntries rulesFile) transaction := by
  rw [buildCategoryMatcher, categoryForSpec, specIdOverrideStep_eq_find,
    specNarrativeOverrideStep_eq_find, specRuleStep_eq_findRuleMatch]
  cases h1 : (overridesById overridesFile).find? fun p => p.1 == transaction.id with
  | some p => simp
  | none =>
  simp only [Option.map_none]
  cases h2 : (narrativeOverrides overridesFile).find?
      fun p => strIncludes transaction.narrativeNormalized p.1 with
  | some p => simp
  | none =>
  simp only [Option.map_none]
  cases h3 : findRuleMatch transaction.narrativeNormalized (ruleEntries rulesFile) with
  | some m => simp
  | none =>
  simp only [Option.map_none, specCreditFallback, specInterestFallback]
  by_cases hdir : transaction.direction = .credit
  · simp [hdir]
  · by_cases hint : jsToUpper transaction.sourceCategory = "INT" <;> simp [hdir, hint]

theorem mem_of_mem_mset {β : Type} {m : List (String × β)} {k : String} {v : β}
    {p : String × β} (h : p ∈ mset m k v) : p ∈ m ∨ p = (k, v) := by
  induction m with
  | nil => simpa [mset] using h
  | cons hd tl ih =>
    by_cases hk : hd.1 = k
    · rw [show mset (hd :: tl) k v = (k, v) :: tl from by rw [mset, if_pos hk]] at h
      rcases List.mem_cons.mp h with h | h
      · exact Or.inr h
      · exact Or.inl (List.mem_cons_of_mem hd h)
    · rw [show mset (hd :: tl) k v = hd :: mset tl k v from by rw [mset, if_neg hk]] at h
      rcases List.mem_cons.mp h with h | h
      · exact Or.inl (h ▸ List.mem_cons_self hd tl)
      · rcases ih h with h | h
        · exact Or.inl (List.mem_cons_of_mem hd h)
        · exact Or.inr h

theorem mget?_eq_some_mem {β : Type} {m : List (String × β)} {k : String} {b : β}
    (h : mget? m k = some b) : (k, b) ∈ m := by
  induction m with
  | nil => simp [mget?] at h
  | cons hd tl ih =>
    by_cases hk : hd.1 = k
    · rw [mget?, if_pos hk] at h
      injection h with hb
      subst hk
      subst hb
      exact List.mem_cons.mpr (Or.inl Prod.mk.eta.symm)
    · rw [mget?, if_neg hk] at h
      exact List.mem_cons_of_mem hd (ih h)

theorem insertSorted_perm {α : Type} (keep : α → α → Bool) (x : α) (l : List α) :
    (insertSorted keep x l).Perm (x :: l) := by
  induction l with
  | nil => exact List.Perm.refl _
  | cons y ys ih =>
    rw [insertSorted]
    by_cases hk : keep y x
    · rw [if_pos hk]
      exact (List.Perm.cons y ih).trans (List.Perm.swap x y ys)
    · rw [if_neg hk]

theorem stableSortBy_perm {α : Type} (keep : α → α → Bool) (l : List α) :
    (stableSortBy keep l).Perm l := by
  have general : ∀ (l acc : List α),
      (l.foldl (fun acc x => insertSorted keep x acc) acc).Perm (acc ++ l) := by
    intro l
    induction l with
    | nil => simp
    | cons a t ih =>
      intro acc
      rw [List.foldl_cons]
      refine (ih (insertSorted keep a acc)).trans ?_
      refine (List.Perm.append_right t (insertSorted_perm keep a acc)).trans ?_
      exact List.perm_middle.symm
  simpa using general l []

theorem foldl_add_eq_sum {α : Type} (val : α → ℚ) (l : List α) (a : ℚ) :
    l.foldl (fun s x => s + val x) a = a + (l.map val).sum := by
  induction l generalizing a with
  | nil => simp
  | cons x t ih => rw [List.foldl_cons, ih]; simp [add_assoc]

theorem foldl_add_pair_eq_sum (l : List (String × ℚ)) (a : ℚ) :
    l.foldl (fun s p => s + p.2) a = a + (l.map Prod.snd).sum := by
  simpa using foldl_add_eq_sum Prod.snd l a

theorem round2_nonneg {q : ℚ} (h : 0 ≤ q) : 0 ≤ round2 q := by
  rw [round2]
  have hr : (0 : ℤ) ≤ round (q * 100) := by
    rw [round_eq]
    exact Int.floor_nonneg.mpr (by positivity)
  have : (0 : ℚ) ≤ (round (q * 100) : ℚ) := by exact_mod_cast hr
  positivity

theorem groupAddFold_nonneg {α : Type} (key : α → String) (val : α → ℚ) (l : List α)
    (init : List (String × ℚ)) (hinit : ∀ p ∈ init, 0 ≤ p.2)
    (hval : ∀ x ∈ l, 0 ≤ val x) :
    ∀ p ∈ l.foldl (fun m x => mset m (key x) ((mget? m (key x)).getD 0 + val x)) init,
      0 ≤ p.2 := by
  induction l generalizing init with
  | nil => exact hinit
  | cons a t ih =>
    rw [List.foldl_cons]
    refine ih _ ?_ fun x hx => hval x (List.mem_cons_of_mem a hx)
    intro p hp
    rcases mem_of_mem_mset hp with hp | hp
    · exact hinit p hp
    · rw [hp]
      have hold : 0 ≤ (mget? init (key a)).getD 0 := by
        cases hg : mget? init (key a) with
        | none => simp
        | some b => simpa using hinit _ (mget?_eq_some_mem hg)
      exact add_nonneg hold (hval a (List.mem_cons_self a t))

theorem mset_snd_sum_getD (m : List (String × ℚ)) (k : String) (d : ℚ) :
    ((mset m k ((mget? m k).getD 0 + d)).map Prod.snd).sum = (m.map Prod.snd).sum + d := by
  induction m with
  | nil => simp [mset, mget?]
  | cons hd tl ih =>
    by_cases hk : hd.1 = k
    · rw [show mget? (hd :: tl) k = some hd.2 from by rw [mget?, if_pos hk]]
      rw [show mset (hd :: tl) k ((some hd.2).getD 0 + d) = (k, hd.2 + d) :: tl from by
        rw [mset, if_pos hk]; rfl]
      simp
      ring
    · rw [show mget? (hd :: tl) k = mget? tl k from by rw [mget?, if_neg hk]]
      rw [show mset (hd :: tl) k ((mget? tl k).getD 0 + d) =
          hd :: mset tl k ((mget? tl k).getD 0 + d) from by rw [mset, if_neg hk]]
      simp [ih]
      ring

theorem groupAddFold_sum {α : Type} (key : α → String) (val : α → ℚ) (l : List α)
    (init : List (String × ℚ)) :
    (((l.foldl (fun m x => mset m (key x) ((mget? m (key x)).getD 0 + val x)) init).map
      Prod.snd).sum) = (init.map Prod.snd).sum + (l.map val).sum := by
  induction l generalizing init with
  | nil => simp
  | cons a t ih =>
    rw [List.foldl_cons, ih, mset_snd_sum_getD]
    simp
    ring

theorem sumTot_mset_some (m : List (String × (ℚ × ℕ))) (k : String) (e v : ℚ × ℕ)
    (h : mget? m k = some e) :
    ((mset m k v).map fun p => p.2.1).sum = ((m.map fun p => p.2.1).sum - e.1) + v.1 := by
  induction m with
  | nil => simp [mget?] at h
  | cons hd tl ih =>
    by_cases hk : hd.1 = k
    · rw [mget?, if_pos hk] at h
      injection h with he
      rw [show mset (hd :: tl) k v = (k, v) :: tl from by rw [mset, if_pos hk]]
      subst he
      simp
      ring
    · rw [mget?, if_neg hk] at h
      rw [show mset (hd :: tl) k v = hd :: mset tl k v from by rw [mset, if_neg hk]]
      simp [ih h]
      ring

theorem sumTot_mset_none (m : List (String × (ℚ × ℕ))) (k : String) (v : ℚ × ℕ)
    (h : mget? m k = none) :
    ((mset m k v).map fun p => p.2.1).sum = (m.map fun p => p.2.1).sum + v.1 := by
  induction m with
  | nil => simp [mset]
  | cons hd tl ih =>
    by_cases hk : hd.1 = k
    · rw [mget?, if_pos hk] at h
      exact Option.noConfusion h
    · rw [mget?, if_neg hk] at h
      rw [show mset (hd :: tl) k v = hd :: mset tl k v from by rw [mset, if_neg hk]]
      simp [ih h]
      ring

theorem vizCatFold_nonneg (l : List RawTransaction) (init : List (String × (ℚ × ℕ)))
    (hinit : ∀ p ∈ init, 0 ≤ p.2.1) (hl : ∀ t ∈ l, 0 ≤ t.amount) :
    ∀ p ∈ l.foldl vizCatStep init, 0 ≤ p.2.1 := by
  induction l generalizing init with
  | nil => exact hinit
  | cons a t ih =>
    rw [List.foldl_cons]
    refine ih _ ?_ fun x hx => hl x (List.mem_cons_of_mem a hx)
    intro p hp
    have ha := hl a (List.mem_cons_self a t)
    rw [vizCatStep] at hp
    cases hg : mget? init a.category with
    | some e =>
      rw [hg] at hp
      rcases mem_of_mem_mset hp with hp | hp
      · exact hinit p hp
      · rw [hp]
        exact add_nonneg (by simpa using hinit _ (mget?_eq_some_mem hg)) ha
    | none =>
      rw [hg] at hp
      rcases mem_of_mem_mset hp with hp | hp
      · exact hinit p hp
      · rw [hp]
        exact ha

theorem vizCatFold_sum (l : List RawTransaction) (init : List (String × (ℚ × ℕ))) :
    ((l.foldl vizCatStep init).map fun p => p.2.1).sum =
      (init.map fun p => p.2.1).sum + (l.map RawTransaction.amount).sum := by
  induction l generalizing init with
  | nil => simp
  | cons a t ih =>
    rw [List.foldl_cons, ih]
    have hstep : ((vizCatStep init a).map fun p => p.2.1).sum =
        (init.map fun p => p.2.1).sum + a.amount := by
      rw [vizCatStep]
      cases hg : mget? init a.category with
      | some e => rw [sumTot_mset_some init a.category e _ hg]; ring
      | none => rw [sumTot_mset_none init a.category _ hg]
    rw [hstep]
    simp
    ring

theorem incomeBySource_nonneg (transactions : List RawTransaction) :
    ∀ p ∈ incomeBySource transactions, 0 ≤ p.2 := by
  rw [incomeBySource]
  exact groupAddFold_nonneg incomeSourceName (fun t => |t.amount|) _ [] (by simp)
    fun x _ => abs_nonneg _

theorem rawIncomeSources_nonneg (transactions : List RawTransaction) :
    ∀ p ∈ rawIncomeSources transactions, 0 ≤ p.2 := by
  intro p hp
  exact incomeBySource_nonneg transactions p
    ((stableSortBy_perm _ _).mem_iff.mp hp)

theorem otherIncomeTotal_nonneg (transactions : List RawTransaction) :
    0 ≤ otherIncomeTotal transactions := by
  rw [otherIncomeTotal, foldl_add_pair_eq_sum, zero_add]
  refine List.sum_nonneg ?_
  intro x hx
  obtain ⟨q, hq, rfl⟩ := List.mem_map.mp hx
  exact rawIncomeSources_nonneg transactions q (List.mem_of_mem_drop hq)

theorem compactIncomeSources_nonneg (transactions : List RawTransaction) :
    ∀ p ∈ compactIncomeSources transactions, 0 ≤ p.2 := by
  intro p hp
  rw [compactIncomeSources] at hp
  by_cases hlen : (rawIncomeSources transactions).length > 3
  · rw [if_pos hlen] at hp
    by_cases hother : otherIncomeTotal transactions > 0
    · rw [if_pos hother] at hp
      rcases List.mem_append.mp hp with hp | hp
      · exact rawIncomeSources_nonneg transactions p (List.mem_of_mem_take hp)
      · rw [List.mem_singleton.mp hp]
        exact otherIncomeTotal_nonneg transactions
    · rw [if_neg hother] at hp
      exact rawIncomeSources_nonneg transactions p (List.mem_of_mem_take hp)
  · rw [if_neg hlen] at hp
    exact rawIncomeSources_nonneg transactions p (List.mem_of_mem_take hp)

theorem vizTotalIncome_eq_sum (transactions : List RawTransaction) :
    vizTotalIncome transactions = ((compactIncomeSources transactions).map Prod.snd).sum := by
  rw [vizTotalIncome, foldl_add_pair_eq_sum, zero_add]

theorem vizTotalIncome_nonneg (transactions : List RawTransaction) :
    0 ≤ vizTotalIncome transactions := by
  rw [vizTotalIncome_eq_sum]
  refine List.sum_nonneg ?_
  intro x hx
  obtain ⟨q, hq, rfl⟩ := List.mem_map.mp hx
  exact compactIncomeSources_nonneg transactions q hq

theorem compact_le_totalIncome (transactions : List RawTransaction) :
    ∀ p ∈ compactIncomeSources transactions, p.2 ≤ vizTotalIncome transactions := by
  intro p hp
  rw [vizTotalIncome_eq_sum]
  refine List.single_le_sum ?_ _ (List.mem_map_of_mem Prod.snd hp)
  intro x hx
  obtain ⟨q, hq, rfl⟩ := List.mem_map.mp hx
  exact compactIncomeSources_nonneg transactions q hq

theorem vizIncomeStats_percent_bounds (transactions : List RawTransaction) :
    ∀ s ∈ vizIncomeStats transactions, 0 ≤ s.percent ∧ s.percent ≤ 1 := by
  intro s hs
  rw [vizIncomeStats] at hs
  obtain ⟨p, hp, rfl⟩ := List.mem_map.mp hs
  have hmem : p.2 ∈ compactIncomeSources transactions := by
    have := List.mem_map_of_mem Prod.snd hp
    rwa [List.enum_map_snd] at this
  show 0 ≤ (if vizTotalIncome transactions > 0
      then p.2.2 / vizTotalIncome transactions else 0) ∧
    (if vizTotalIncome transactions > 0
      then p.2.2 / vizTotalIncome transactions else 0) ≤ 1
  by_cases hti : vizTotalIncome transactions > 0
  · rw [if_pos hti]
    constructor
    · exact div_nonneg (compactIncomeSources_nonneg transactions _ hmem) hti.le
    · rw [div_le_one hti]
      exact compact_le_totalIncome transactions _ hmem
  · rw [if_neg hti]
    norm_num

theorem vizSpend_amount_nonneg (transactions : List RawTransaction) :
    ∀ t ∈ vizSpendTransactions transactions, 0 ≤ t.amount := by
  intro t ht
  have hpred := List.of_mem_filter ht
  simp only [Bool.and_eq_true, decide_eq_true_eq] at hpred
  exact hpred.1.2.le

theorem vizTotalSpend_eq_sum (transactions : List RawTransaction) :
    vizTotalSpend transactions =
      ((vizSpendTransactions transactions).map RawTransaction.amount).sum := by
  rw [vizTotalSpend]
  rw [foldl_add_eq_sum RawTransaction.amount, zero_add]

theorem vizTotalSpend_nonneg (transactions : List RawTransaction) :
    0 ≤ vizTotalSpend transactions := by
  rw [vizTotalSpend_eq_sum]
  refine List.sum_nonneg ?_
  intro x hx
  obtain ⟨q, hq, rfl⟩ := List.mem_map.mp hx
  exact vizSpend_amount_nonneg transactions q hq

theorem vizCategoryTotals_nonneg (transactions : List RawTransaction) :
    ∀ p ∈ vizCategoryTotals transactions, 0 ≤ p.2.1 := by
  rw [vizCategoryTotals]
  exact vizCatFold_nonneg _ [] (by simp) (vizSpend_amount_nonneg transactions)

theorem vizCategoryTotals_sum (transactions : List RawTransaction) :
    ((vizCategoryTotals transactions).map fun p => p.2.1).sum = vizTotalSpend transactions := by
  rw [vizCategoryTotals, vizCatFold_sum, vizTotalSpend_eq_sum]
  simp

theorem vizCategoryStats_bounds (transactions : List RawTransaction) :
    ∀ s ∈ vizCategoryStats transactions,
      0 ≤ s.total ∧ (0 ≤ s.percent ∧ s.percent ≤ 1) := by
  intro s hs
  rw [vizCategoryStats] at hs
  obtain ⟨p, hp, rfl⟩ := List.mem_map.mp hs
  have hmem : p.2 ∈ stableSortBy (fun a b => decide (b.2.1 ≤ a.2.1))
      (vizCategoryTotals transactions) := by
    have := List.mem_map_of_mem Prod.snd hp
    rwa [List.enum_map_snd] at this
  have hmem' : p.2 ∈ vizCategoryTotals transactions := (stableSortBy_perm _ _).mem_iff.mp hmem
  have hnn : 0 ≤ p.2.2.1 := vizCategoryTotals_nonneg transactions _ hmem'
  have hle : p.2.2.1 ≤ vizTotalSpend transactions := by
    rw [← vizCategoryTotals_sum]
    refine List.single_le_sum ?_ _ (List.mem_map_of_mem (fun q => q.2.1) hmem')
    intro x hx
    obtain ⟨q, hq, rfl⟩ := List.mem_map.mp hx
    exact vizCategoryTotals_nonneg transactions q hq
  refine ⟨hnn, ?_⟩
  show 0 ≤ (if vizTotalSpend transactions > 0
      then p.2.2.1 / vizTotalSpend transactions else 0) ∧
    (if vizTotalSpend transactions > 0
      then p.2.2.1 / vizTotalSpend transactions else 0) ≤ 1
  by_cases hts : vizTotalSpend transactions > 0
  · rw [if_pos hts]
    exact ⟨div_nonneg hnn hts.le, (div_le_one hts).mpr hle⟩
  · rw [if_neg hts]
    norm_num

theorem vizSavings_nonneg (transactions : List RawTransaction) :
    0 ≤ vizSavings transactions := le_max_left 0 _

theorem vizSavings_le_totalIncome (transactions : List RawTransaction) :
    vizSavings transactions ≤ vizTotalIncome transactions := by
  rw [vizSavings]
  exact max_le (vizTotalIncome_nonneg transactions)
    (sub_le_self _ (vizTotalSpend_nonneg transactions))

theorem vizOutflowStats_total_nonneg (transactions : List RawTransaction) :
    ∀ o ∈ vizOutflowStats transactions, 0 ≤ o.total := by
  intro o ho
  rw [vizOutflowStats] at ho
  rcases List.mem_append.mp ho with ho | ho
  · exact (vizCategoryStats_bounds transactions o ho).1
  · by_cases hsav : vizSavings transactions > 0
    · rw [if_pos hsav] at ho
      rw [List.mem_singleton.mp ho]
      exact (vizSavings_nonneg transactions)
    · rw [if_neg hsav] at ho
      exact absurd ho (List.not_mem_nil o)

theorem mem_mkeys_mset {β : Type} (m : List (String × β)) (k : String) (v : β)
    (k' : String) :
    k' ∈ (mset m k v).map Prod.fst ↔ k' ∈ m.map Prod.fst ∨ k' = k := by
  induction m with
  | nil => simp [mset]
  | cons hd tl ih =>
    by_cases hk : hd.1 = k
    · rw [show mset (hd :: tl) k v = (k, v) :: tl from by rw [mset, if_pos hk]]
      simp [← hk]
      tauto
    · rw [show mset (hd :: tl) k v = hd :: mset tl k v from by rw [mset, if_neg hk]]
      simp [ih]
      tauto

theorem mhas_iff_mem_keys {β : Type} (m : List (String × β)) (k : String) :
    mhas m k = true ↔ k ∈ m.map Prod.fst := by
  induction m with
  | nil => simp [mhas, mget?]
  | cons hd tl ih =>
    by_cases hk : hd.1 = k
    · rw [show mhas (hd :: tl) k = true from by rw [mhas, mget?, if_pos hk]; rfl]
      simp [hk]
    · rw [show mhas (hd :: tl) k = mhas tl k from by rw [mhas, mget?, if_neg hk]; rfl]
      rw [ih]
      simp [show ¬k = hd.1 from fun he => hk he.symm]

theorem foldl_push_fst {α β σ : Type} (f : α → β) (g : List β × σ → α → σ) (l : List α)
    (init : List β × σ) :
    (l.foldl (fun st x => (st.1 ++ [f x], g st x)) init).1 = init.1 ++ l.map f := by
  induction l generalizing init with
  | nil => simp
  | cons a t ih => rw [List.foldl_cons, ih]; simp

theorem foldl_push_keys_mem {α β : Type} (f : α → β) (key : α → String) (l : List α)
    (init : List β × List (String × ℕ)) (k : String) (h : k ∈ init.2.map Prod.fst) :
    k ∈ (l.foldl (fun st x => (st.1 ++ [f x], mset st.2 (key x) st.1.length))
      init).2.map Prod.fst := by
  induction l generalizing init with
  | nil => exact h
  | cons a t ih =>
    rw [List.foldl_cons]
    exact ih _ ((mem_mkeys_mset _ _ _ _).mpr (Or.inl h))

theorem vizNodesState_nodes (transactions : List RawTransaction) (currency : String) :
    (vizNodesState transactions currency).1 =
      (vizIncomeStats transactions).map (incomeNodeOf currency) ++
        [totalIncomeNodeOf transactions currency] ++
        (vizOutflowStats transactions).map (outflowNodeOf transactions currency) := by
  simp only [vizNodesState]
  rw [foldl_push_fst (outflowNodeOf transactions currency)
    fun st outflow => mset st.2 (outflowKey outflow) st.1.length]
  rw [foldl_push_fst (incomeNodeOf currency)
    fun st income => mset st.2 ("income:" ++ income.source) st.1.length]
  simp

theorem totalIncomeKey_present (transactions : List RawTransaction) (currency : String) :
    "total:income" ∈ (vizNodesState transactions currency).2.map Prod.fst := by
  simp only [vizNodesState]
  exact foldl_push_keys_mem (outflowNodeOf transactions currency) outflowKey _ _ _
    ((mem_mkeys_mset _ _ _ _).mpr (Or.inr rfl))

/-- C3 counterexample: with income 10 and a single spend category of 50, the
category node's emitted percent is `50 / 10 = 5`, outside `[0, 1]`, so the
claimed invariant fails on the aggregator's output. -/
theorem viz_percent_above_one :
    vizPercentsClaim (buildVisualization vizExampleTxs "AUD") = false ∧
      ((buildVisualization vizExampleTxs "AUD").sankey.nodes.map VizNode.percent) =
        [some 1, some 1, some 5] := by decide

/-- C3 (amended): savings is never negative; the income-stat and category-stat
percents always lie in `[0, 1]`; every node percent is non-negative, and the
income and `Total Income` node percents are at most `1`; the synthetic savings
node's percent is also at most `1` whenever no spend category is itself named
`Savings`. Category-node percents are spend relative to total income and may
exceed `1`. -/
theorem viz_savings_and_percent_bounds (transactions : List RawTransaction)
    (currency : String) :
    0 ≤ (buildVisualization transactions currency).savings ∧
    (∀ s ∈ (buildVisualization transactions currency).incomeStats,
      0 ≤ s.percent ∧ s.percent ≤ 1) ∧
    (∀ s ∈ (buildVisualization transactions currency).categoryStats,
      0 ≤ s.percent ∧ s.percent ≤ 1) ∧
    (∀ n ∈ (buildVisualization transactions currency).sankey.nodes, ∀ p, n.percent = some p →
      0 ≤ p ∧ ((n.kind = .income ∨ n.kind = .total) → p ≤ 1)) ∧
    ("Savings" ∉ (buildVisualization transactions currency).categoryStats.map
        CategoryStat.category →
      ∀ n ∈ (buildVisualization transactions currency).sankey.nodes, n.kind = .savings →
        ∀ p, n.percent = some p → p ≤ 1) := by
  rw [buildVisualization]
  cases htot : mget? (vizNodesState transactions currency).2 "total:income" with
  | none =>
    exact absurd (totalIncomeKey_present transactions currency)
      (by rw [← mhas_iff_mem_keys]; simp [mhas, htot])
  | some i =>
  have hnodes : ∀ n, n ∈ (vizNodesState transactions currency).1 →
      n ∈ (vizIncomeStats transactions).map (incomeNodeOf currency) ++
        [totalIncomeNodeOf transactions currency] ++
        (vizOutflowStats transactions).map (outflowNodeOf transactions currency) := by
    intro n hn
    rwa [vizNodesState_nodes] at hn
  refine ⟨round2_nonneg (vizSavings_nonneg transactions),
    vizIncomeStats_percent_bounds transactions,
    (fun s hs => (vizCategoryStats_bounds transactions s hs).2), ?_, ?_⟩
  · intro n hn p hp
    rcases List.mem_append.mp (hnodes n hn) with hn' | hn'
    · rcases List.mem_append.mp hn' with hn'' | hn''
      · obtain ⟨s, hs, rfl⟩ := List.mem_map.mp hn''
        have hb := vizIncomeStats_percent_bounds transactions s hs
        have hps : p = s.percent := by
          injection hp with hp'
          exact hp'.symm
        exact ⟨hps ▸ hb.1, fun _ => hps ▸ hb.2⟩
      · rw [List.mem_singleton.mp hn'']  at hp
        have hps : p = 1 := by
          injection hp with hp'
          exact hp'.symm
        rw [hps]
        exact ⟨by norm_num, fun _ => le_refl 1⟩
    · obtain ⟨o, ho, rfl⟩ := List.mem_map.mp hn'
      have hps : p = (if vizTotalIncome transactions > 0
          then o.total / vizTotalIncome transactions else 0) := by
        injection hp with hp'
        exact hp'.symm
      constructor
      · rw [hps]
        by_cases hti : vizTotalIncome transactions > 0
        · rw [if_pos hti]
          exact div_nonneg (vizOutflowStats_total_nonneg transactions o ho) hti.le
        · rw [if_neg hti]
      · intro hk
        rw [outflowNodeOf] at hk
        by_cases hsav : o.category == "Savings" <;> simp [hsav] at hk
  · intro hnotin n hn hkind p hp
    rcases List.mem_append.mp (hnodes n hn) with hn' | hn'
    · rcases List.mem_append.mp hn' with hn'' | hn''
      · obtain ⟨s, hs, rfl⟩ := List.mem_map.mp hn''
        rw [incomeNodeOf] at hkind
        simp at hkind
      · rw [List.mem_singleton.mp hn''] at hkind
        rw [totalIncomeNodeOf] at hkind
        simp at hkind
    · obtain ⟨o, ho, rfl⟩ := List.mem_map.mp hn'
      rw [outflowNodeOf] at hkind
      by_cases hsav : o.category == "Savings"
      · have hocat : o.category = "Savings" := by simpa using hsav
        rw [vizOutflowStats] at ho
        rcases List.mem_append.mp ho with ho' | ho'
        · exact absurd (hocat ▸ List.mem_map_of_mem CategoryStat.category ho') hnotin
        · by_cases hpos : vizSavings transactions > 0
          · rw [if_pos hpos] at ho'
            rw [List.mem_singleton.mp ho'] at hp
            have hps : p = (if vizTotalIncome transactions > 0
                then vizSavings transactions / vizTotalIncome transactions else 0) := by
              injection hp with hp'
              exact hp'.symm
            rw [hps]
            by_cases hti : vizTotalIncome transactions > 0
            · rw [if_pos hti, div_le_one hti]
              exact vizSavings_le_totalIncome transactions
            · rw [if_neg hti]
              norm_num
          · rw [if_neg hpos] at ho'
            exact absurd ho' (List.not_mem_nil o)
      · simp [hsav] at hkind

/-- C3 witness: the amended statement at a concrete input with positive
savings. -/
theorem viz_savings_and_percent_bounds_witness :
    0 ≤ (buildVisualization vizExampleTxs "AUD").savings :=
  (viz_savings_and_percent_bounds vizExampleTxs "AUD").1

theorem round2_zero : round2 0 = 0 := by
  rw [round2]
  norm_num

theorem round2_close (x : ℚ) : |round2 x - x| ≤ 1 / 200 := by
  rw [round2]
  have h := abs_sub_round (x * 100)
  have heq : (round (x * 100) : ℚ) / 100 - x = ((round (x * 100) : ℚ) - x * 100) / 100 := by
    ring
  rw [heq, abs_div, show |(100 : ℚ)| = 100 from by norm_num, abs_sub_comm]
  linarith

theorem round2_sum_close (vals : List ℚ) :
    |(vals.map round2).sum - vals.sum| ≤ (vals.length : ℚ) / 200 := by
  induction vals with
  | nil => simp
  | cons v t ih =>
    simp only [List.map_cons, List.sum_cons, List.length_cons]
    have step : |round2 v + ((t.map round2).sum) - (v + t.sum)| ≤
        |round2 v - v| + |(t.map round2).sum - t.sum| := by
      have : round2 v + ((t.map round2).sum) - (v + t.sum) =
          (round2 v - v) + ((t.map round2).sum - t.sum) := by ring
      rw [this]
      exact abs_add _ _
    have hb := add_le_add (round2_close v) ih
    have hcast : ((t.length + 1 : ℕ) : ℚ) = (t.length : ℚ) + 1 := by push_cast; ring
    calc |round2 v + ((t.map round2).sum) - (v + t.sum)|
        ≤ |round2 v - v| + |(t.map round2).sum - t.sum| := step
      _ ≤ 1 / 200 + (t.length : ℚ) / 200 := hb
      _ = ((t.length : ℚ) + 1) / 200 := by ring
      _ = ((t.length + 1 : ℕ) : ℚ) / 200 := by rw [hcast]

theorem round2_sum_bound (vals : List ℚ) :
    |(vals.map round2).sum - round2 vals.sum| ≤ (vals.length : ℚ) / 100 := by
  cases vals with
  | nil => simp [round2_zero]
  | cons v t =>
    have h1 := round2_sum_close (v :: t)
    have h2 := round2_close ((v :: t).sum)
    have hlen : (1 : ℚ) ≤ ((v :: t).length : ℚ) := by
      simp only [List.length_cons]
      push_cast
      linarith [Nat.cast_nonneg (α := ℚ) t.length]
    have tri : |((v :: t).map round2).sum - round2 ((v :: t).sum)| ≤
        |((v :: t).map round2).sum - (v :: t).sum| +
          |(v :: t).sum - round2 ((v :: t).sum)| := by
      have : ((v :: t).map round2).sum - round2 ((v :: t).sum) =
          (((v :: t).map round2).sum - (v :: t).sum) +
            ((v :: t).sum - round2 ((v :: t).sum)) := by ring
      rw [this]
      exact abs_add _ _
    have h2' : |(v :: t).sum - round2 ((v :: t).sum)| ≤ 1 / 200 := by
      rw [abs_sub_comm]
      exact round2_close _
    have : |((v :: t).map round2).sum - round2 ((v :: t).sum)| ≤
        ((v :: t).length : ℚ) / 200 + 1 / 200 := le_trans tri (add_le_add h1 h2')
    refine le_trans this ?_
    rw [div_add_div_same, div_le_div_iff₀ (by norm_num) (by norm_num)]
    ring_nf
    nlinarith [hlen]

theorem mset_rooted {idx : List (String × ℕ)} {rest : List (String × ℕ)} {k : String}
    {v : ℕ} (hr : idx = ("Total Spend", 0) :: rest) (hrest : ∀ p ∈ rest, 1 ≤ p.2)
    (hk : ¬k = "Total Spend") (hv : 1 ≤ v) : rootedIdx (mset idx k v) := by
  subst hr
  rw [show mset (("Total Spend", 0) :: rest) k v = ("Total Spend", 0) :: mset rest k v from
    by rw [mset, if_neg fun he => hk he.symm]]
  refine ⟨mset rest k v, rfl, ?_⟩
  intro p hp
  rcases mem_of_mem_mset hp with hp | hp
  · exact hrest p hp
  · rw [hp]
    exact hv

theorem rooted_get_root {idx : List (String × ℕ)} (hr : rootedIdx idx) :
    mget? idx "Total Spend" = some 0 := by
  obtain ⟨rest, hr1, -⟩ := hr
  rw [hr1, mget?, if_pos rfl]

theorem rooted_get_ne {idx : List (String × ℕ)} {k : String} {j : ℕ} (hr : rootedIdx idx)
    (hk : ¬k = "Total Spend") (hget : mget? idx k = some j) : 1 ≤ j := by
  obtain ⟨rest, hr1, hrest⟩ := hr
  rw [hr1, mget?, if_neg fun he => hk he.symm] at hget
  exact hrest _ (mget?_eq_some_mem hget)

theorem catFold_rooted (l : List (String × ℚ)) (st : List SankeyNode × List (String × ℕ))
    (hkey : ∀ p ∈ l, ¬p.1 = "Total Spend") (hlen : 1 ≤ st.1.length)
    (hr : rootedIdx st.2) :
    1 ≤ (l.foldl (fun st p => (st.1 ++ [(⟨p.1⟩ : SankeyNode)], mset st.2 p.1 st.1.length))
      st).1.length ∧
    rootedIdx (l.foldl (fun st p => (st.1 ++ [(⟨p.1⟩ : SankeyNode)], mset st.2 p.1 st.1.length))
      st).2 := by
  induction l generalizing st with
  | nil => exact ⟨hlen, hr⟩
  | cons a t ih =>
    rw [List.foldl_cons]
    obtain ⟨rest, hr1, hrest⟩ := hr
    refine ih _ (fun p hp => hkey p (List.mem_cons_of_mem a hp))
      (by simp only [List.length_append, List.length_singleton]; omega) ?_
    exact mset_rooted hr1 hrest (hkey a (List.mem_cons_self a t)) hlen

theorem merchStep_rooted (st : List SankeyNode × List (String × ℕ)) (m : String)
    (hlen : 1 ≤ st.1.length) (hr : rootedIdx st.2) :
    1 ≤ (sankeyMerchantStep st m).1.length ∧ rootedIdx (sankeyMerchantStep st m).2 := by
  rw [sankeyMerchantStep]
  by_cases hhas : mhas st.2 m
  · rw [if_pos hhas]
    exact ⟨hlen, hr⟩
  · rw [if_neg hhas]
    obtain ⟨rest, hr1, hrest⟩ := hr
    have hm : ¬m = "Total Spend" := by
      intro he
      apply hhas
      rw [mhas_iff_mem_keys, hr1, he]
      simp
    exact ⟨by simp only [List.length_append, List.length_singleton]; omega,
      mset_rooted hr1 hrest hm hlen⟩

theorem merchFold_rooted (entries : List (String × List (String × ℚ)))
    (st : List SankeyNode × List (String × ℕ)) (hlen : 1 ≤ st.1.length)
    (hr : rootedIdx st.2) :
    1 ≤ (entries.foldl (fun st p => p.2.foldl (fun st q => sankeyMerchantStep st q.1) st)
      st).1.length ∧
    rootedIdx (entries.foldl (fun st p => p.2.foldl (fun st q => sankeyMerchantStep st q.1) st)
      st).2 := by
  have inner : ∀ (ms : List (String × ℚ)) (st : List SankeyNode × List (String × ℕ)),
      1 ≤ st.1.length → rootedIdx st.2 →
      1 ≤ (ms.foldl (fun st q => sankeyMerchantStep st q.1) st).1.length ∧
        rootedIdx (ms.foldl (fun st q => sankeyMerchantStep st q.1) st).2 := by
    intro ms
    induction ms with
    | nil => exact fun st h1 h2 => ⟨h1, h2⟩
    | cons q t ih =>
      intro st h1 h2
      rw [List.foldl_cons]
      obtain ⟨g1, g2⟩ := merchStep_rooted st q.1 h1 h2
      exact ih _ g1 g2
  induction entries generalizing st with
  | nil => exact ⟨hlen, hr⟩
  | cons p t ih =>
    rw [List.foldl_cons]
    obtain ⟨g1, g2⟩ := inner p.2 st hlen hr
    exact ih _ g1 g2

theorem merchFold_keys_mono (entries : List (String × List (String × ℚ)))
    (st : List SankeyNode × List (String × ℕ)) (k : String)
    (h : k ∈ st.2.map Prod.fst) :
    k ∈ (entries.foldl (fun st p => p.2.foldl (fun st q => sankeyMerchantStep st q.1) st)
      st).2.map Prod.fst := by
  have inner : ∀ (ms : List (String × ℚ)) (st : List SankeyNode × List (String × ℕ)),
      k ∈ st.2.map Prod.fst →
      k ∈ (ms.foldl (fun st q => sankeyMerchantStep st q.1) st).2.map Prod.fst := by
    intro ms
    induction ms with
    | nil => exact fun st h => h
    | cons q t ih =>
      intro st h
      rw [List.foldl_cons]
      refine ih _ ?_
      rw [sankeyMerchantStep]
      by_cases hh : mhas st.2 q.1
      · rw [if_pos hh]
        exact h
      · rw [if_neg hh]
        exact (mem_mkeys_mset _ _ _ _).mpr (Or.inl h)
  induction entries generalizing st with
  | nil => exact h
  | cons p t ih =>
    rw [List.foldl_cons]
    exact ih _ (inner p.2 st h)

theorem merchLinks_filter_eq (ms : List (String × ℚ)) (idx : List (String × ℕ))
    (target : ℕ) (ht : 1 ≤ target) (acc : List SankeyLink) :
    ((ms.foldl (fun links q =>
        match mget? idx q.1 with
        | none => links
        | some merchantIndex => links ++ [⟨target, merchantIndex, round2 q.2⟩]) acc).filter
      fun lk => lk.source == 0) = acc.filter fun lk => lk.source == 0 := by
  induction ms generalizing acc with
  | nil => rfl
  | cons q t ih =>
    rw [List.foldl_cons]
    cases hg : mget? idx q.1 with
    | none => exact ih acc
    | some mi =>
      rw [show (match some mi with
          | none => acc
          | some merchantIndex =>
            acc ++ [(⟨target, merchantIndex, round2 q.2⟩ : SankeyLink)]) =
          acc ++ [(⟨target, mi, round2 q.2⟩ : SankeyLink)] from rfl]
      rw [ih, List.filter_append]
      have hne : ((⟨target, mi, round2 q.2⟩ : SankeyLink).source == 0) = false :=
        beq_eq_false_iff_ne.mpr (by show target ≠ 0; omega)
      simp [hne]

theorem linkFold_filter_sum (l : List (String × ℚ)) (idx : List (String × ℕ))
    (merch : List (String × List (String × ℚ))) (acc : List SankeyLink)
    (hroot : mget? idx "Total Spend" = some 0)
    (hcats : ∀ p ∈ l, ∃ j, mget? idx p.1 = some j ∧ 1 ≤ j) :
    (((l.foldl (sankeyLinkStep idx merch) acc).filter fun lk => lk.source == 0).map
      SankeyLink.value).sum =
    ((acc.filter fun lk => lk.source == 0).map SankeyLink.value).sum +
      (l.map fun p => round2 p.2).sum := by
  induction l generalizing acc with
  | nil => simp
  | cons p t ih =>
    rw [List.foldl_cons, ih _ fun q hq => hcats q (List.mem_cons_of_mem p hq)]
    obtain ⟨j, hj, hj1⟩ := hcats p (List.mem_cons_self p t)
    have hstep : ((sankeyLinkStep idx merch acc p).filter fun lk => lk.source == 0) =
        (acc.filter fun lk => lk.source == 0) ++ [⟨0, j, round2 p.2⟩] := by
      rw [sankeyLinkStep, hroot, hj]
      show ((match mget? merch p.1 with
        | none => acc ++ [(⟨0, j, round2 p.2⟩ : SankeyLink)]
        | some merchants =>
          (stableSortBy (fun a b : String × ℚ => strLe a.1 b.1) merchants).foldl
            (fun (links : List SankeyLink) (q : String × ℚ) =>
              match mget? idx q.1 with
              | none => links
              | some merchantIndex => links ++ [(⟨j, merchantIndex, round2 q.2⟩ : SankeyLink)])
            (acc ++ [(⟨0, j, round2 p.2⟩ : SankeyLink)])).filter
          fun lk : SankeyLink => lk.source == 0) = _
      cases hm : mget? merch p.1 with
      | none =>
        rw [List.filter_append]
        simp
      | some merchants =>
        rw [merchLinks_filter_eq _ idx j hj1, List.filter_append]
        simp
    rw [hstep]
    simp only [List.map_append, List.sum_append, List.map_cons, List.sum_cons,
      List.map_nil, List.sum_nil]
    ring

/-- C2 counterexample: the flow-graph artifact embeds the wall-clock reading
in `generatedAt`, so two runs over the same (empty) transaction set whose
clock readings differ produce records that are not identical. -/
theorem buildSankeyData_not_identical_across_runs :
    buildSankeyData [] "2026-02-23T00:00:00.000Z" ≠
      buildSankeyData [] "2026-02-23T00:00:00.001Z" := by decide

/-- C2 (amended): for a fixed transaction set, every field of the flow-graph
artifact other than the `generatedAt` timestamp — nodes, links, summary and
currency — is identical across runs, whatever the two clock readings are. -/
theorem buildSankeyData_deterministic_up_to_timestamp
    (transactions : List NormalizedTransaction) (t1 t2 : String) :
    (buildSankeyData transactions t1).nodes = (buildSankeyData transactions t2).nodes ∧
    (buildSankeyData transactions t1).links = (buildSankeyData transactions t2).links ∧
    (buildSankeyData transactions t1).summary = (buildSankeyData transactions t2).summary ∧
    (buildSankeyData transactions t1).currency = (buildSankeyData transactions t2).currency :=
  ⟨rfl, rfl, rfl, rfl⟩

theorem narrative_reason_ne_default (s : String) :
    "override:narrative:" ++ s ≠ "fallback:uncategorized" := by
  intro h
  have hd := congrArg String.data h
  simp [String.data_append] at hd

theorem rule_reason_ne_default (s : String) :
    "rule:" ++ s ≠ "fallback:uncategorized" := by
  intro h
  have hd := congrArg String.data h
  simp [String.data_append] at hd

/-- C8 counterexample: the default fallback also fires for a transaction of
`neutral` direction (a row with neither a debit nor a credit amount), so it is
not restricted to debit transactions. -/
theorem default_fallback_fires_for_neutral :
    buildCategoryMatcher emptyRules emptyOverrides neutralTx =
      ⟨"Uncategorized", "fallback:uncategorized"⟩ ∧ neutralTx.direction ≠ .debit := by
  decide

/-- C8 (amended): whenever the engine returns the default fallback reason, the
transaction's direction is not credit — it is either debit or neutral. -/
theorem default_fallback_only_noncredit (rulesFile : CategoryRulesFile)
    (overridesFile : OverridesFile) (transaction : TxBase)
    (h : (buildCategoryMatcher rulesFile overridesFile transaction).reason =
      "fallback:uncategorized") :
    transaction.direction = .debit ∨ transaction.direction = .neutral := by
  rw [buildCategoryMatcher] at h
  cases h1 : (overridesById overridesFile).find? fun p => p.1 == transaction.id with
  | some p =>
    rw [h1] at h
    replace h : ("override:id" : String) = "fallback:uncategorized" := h
    exact absurd h (by decide)
  | none =>
  rw [h1] at h
  cases h2 : (narrativeOverrides overridesFile).find?
      fun p => strIncludes transaction.narrativeNormalized p.1 with
  | some p =>
    rw [h2] at h
    replace h : "override:narrative:" ++ p.1 = "fallback:uncategorized" := h
    exact absurd h (narrative_reason_ne_default p.1)
  | none =>
  rw [h2] at h
  cases h3 : findRuleMatch transaction.narrativeNormalized (ruleEntries rulesFile) with
  | some m =>
    rw [h3] at h
    replace h : "rule:" ++ m.2 = "fallback:uncategorized" := h
    exact absurd h (rule_reason_ne_default m.2)
  | none =>
  rw [h3] at h
  by_cases hdir : transaction.direction = .credit
  · rw [if_pos hdir] at h; exact absurd h (by decide)
  · cases hd : transaction.direction with
    | debit => exact Or.inl rfl
    | neutral => exact Or.inr rfl
    | credit => exact absurd hd hdir

/-- C8 witness: the amended statement at a concrete debit transaction. -/
theorem default_fallback_only_noncredit_witness :
    (buildCategoryMatcher emptyRules emptyOverrides plainDebitTx).reason =
        "fallback:uncategorized" ∧
      (plainDebitTx.direction = .debit ∨ plainDebitTx.direction = .neutral) :=
  ⟨by decide, default_fallback_only_noncredit emptyRules emptyOverrides plainDebitTx (by decide)⟩

/-- C10: on the empty transaction list the aggregator yields exactly one node,
the synthetic `Total Income` hub with value `0` and percent `1`, no links,
zero totals and savings, empty stat lists, and zero counts. -/
theorem buildVisualization_empty_input (currency : String) :
    ((buildVisualization [] currency).sankey.nodes.map
        fun n => (n.name, n.kind, n.value, n.percent)) =
      [("Total Income", .total, 0, some 1)] ∧
    (buildVisualization [] currency).sankey.links = [] ∧
    (buildVisualization [] currency).totalIncome = 0 ∧
    (buildVisualization [] currency).totalSpend = 0 ∧
    (buildVisualization [] currency).savings = 0 ∧
    (buildVisualization [] currency).incomeStats = [] ∧
    (buildVisualization [] currency).categoryStats = [] ∧
    (buildVisualization [] currency).spendCount = 0 ∧
    (buildVisualization [] currency).outflowCount = 0 := by
  exact ⟨rfl, rfl, rfl, rfl, rfl, rfl, rfl, rfl, rfl⟩

/-- C4 counterexample: a row carrying both a debit amount (`"5"`) and a credit
amount (`"3"`) normalizes to a record in which `debitAmount` and
`creditAmount` are BOTH non-zero — the credit value is retained in the record,
not zeroed out. -/
theorem normalizer_retains_both_amounts :
    ((normalizeRow (buildCategoryMatcher emptyRules emptyOverrides) 0 bothAmountsRow).toOption.map
        fun t => (t.debitAmount, t.creditAmount)) = some (5, 3) ∧
      ¬((5 : ℚ) = 0 ∨ (3 : ℚ) = 0) := by decide

/-- C4 (amended): a normalized transaction stores exactly the parsed raw money
values in `debitAmount`/`creditAmount` (so both can be non-zero, and they are
only as non-negative as the raw strings); the debit is checked first, so a
positive debit determines `amount` and a `debit` direction regardless of the
credit, a positive credit matters only when the debit is not positive, and
otherwise the transaction is neutral with zero amount. -/
theorem normalized_amount_derivation (categoryFor : TxBase → CatResult) (index : ℕ)
    (row : BankRow) (tx : NormalizedTransaction)
    (h : normalizeRow categoryFor index row = .ok tx) :
    tx.debitAmount = parseMoney row.debitAmount ∧
    tx.creditAmount = parseMoney row.creditAmount ∧
    (0 < tx.debitAmount → tx.amount = tx.debitAmount ∧ tx.direction = .debit) ∧
    (¬0 < tx.debitAmount → 0 < tx.creditAmount →
      tx.amount = -tx.creditAmount ∧ tx.direction = .credit) ∧
    (¬0 < tx.debitAmount → ¬0 < tx.creditAmount →
      tx.amount = 0 ∧ tx.direction = .neutral) := by
  rw [normalizeRow] at h
  cases hdate : parseDate row.date with
  | error e => rw [hdate] at h; exact absurd h (by simp)
  | ok date =>
    rw [hdate] at h
    replace h := Except.ok.inj h
    subst h
    refine ⟨rfl, rfl, fun hpos => ⟨?_, ?_⟩, fun hnd hc => ⟨?_, ?_⟩, fun hnd hnc => ⟨?_, ?_⟩⟩
    · exact if_pos hpos
    · exact if_pos hpos
    · show derivedAmount (parseMoney row.debitAmount) (parseMoney row.creditAmount) = _
      rw [derivedAmount, if_neg hnd, if_pos hc]
    · show derivedDirection (parseMoney row.debitAmount) (parseMoney row.creditAmount) = _
      rw [derivedDirection, if_neg hnd, if_pos hc]
    · show derivedAmount (parseMoney row.debitAmount) (parseMoney row.creditAmount) = _
      rw [derivedAmount, if_neg hnd, if_neg hnc]
    · show derivedDirection (parseMoney row.debitAmount) (parseMoney row.creditAmount) = _
      rw [derivedDirection, if_neg hnd, if_neg hnc]

/-- C4 witness: the amended statement applied to a concrete debit-only row. -/
theorem normalized_amount_derivation_witness :
    ((normalizeRow (buildCategoryMatcher emptyRules emptyOverrides) 0
        debitOnlyRow).toOption.getD
          { neutralTx with category := "", categoryReason := "" }).debitAmount =
      parseMoney debitOnlyRow.debitAmount :=
  (normalized_amount_derivation (buildCategoryMatcher emptyRules emptyOverrides) 0
    debitOnlyRow _ (by decide)).1

/-- C9 counterexample: the five replacements run in sequence, so after the
`PAYMENT BY AUTHORITY TO` prefix is stripped the later `DEPOSIT` pattern
strips a second prefix, whereas the claimed strip-only-the-first-match reading
keeps `DEPOSIT FOO`. -/
theorem inferMerchant_strips_two_prefixes :
    inferMerchant "PAYMENT BY AUTHORITY TO DEPOSIT FOO" = "FOO" ∧
      inferMerchantClaim "PAYMENT BY AUTHORITY TO DEPOSIT FOO" = "DEPOSIT FOO" := by
  decide

/-- C9 (amended): the five prefix patterns are applied sequentially, each
stripped at most once but possibly several in a row; when none of them matches
the whitespace-collapsed narrative, the merchant is the collapsed, trimmed
narrative (the trimmed original if that collapse trims to empty). -/
theorem inferMerchant_no_pattern_match (narrative : String)
    (h : noMerchantPatternMatches narrative = true) :
    inferMerchant narrative =
      if listTrim (collapseWs narrative.data) = [] then jsTrim narrative
      else ⟨listTrim (collapseWs narrative.data)⟩ := by
  rw [noMerchantPatternMatches] at h
  simp only [Bool.and_eq_true, Option.isNone_iff_eq_none] at h
  obtain ⟨⟨⟨⟨h1, h2⟩, h3⟩, h4⟩, h5⟩ := h
  rw [inferMerchant]
  simp only [stripPat, h1, h2, h3, h4, h5]

/-- C9 witness: the amended statement at a narrative with no bank prefix. -/
theorem inferMerchant_no_pattern_match_witness :
    inferMerchant "COLES 0931 SYDNEY" =
      if listTrim (collapseWs "COLES 0931 SYDNEY".data) = [] then jsTrim "COLES 0931 SYDNEY"
      else ⟨listTrim (collapseWs "COLES 0931 SYDNEY".data)⟩ :=
  inferMerchant_no_pattern_match "COLES 0931 SYDNEY" (by decide)

theorem dropWhile_eq_self_of_all {p : Char → Bool} {l : List Char}
    (h : ∀ c ∈ l, p c = false) : l.dropWhile p = l := by
  cases l with
  | nil => rfl
  | cons a t => rw [List.dropWhile_cons, h a (by simp)]; simp

theorem takeWhile_eq_self_of_all {p : Char → Bool} {l : List Char}
    (h : ∀ c ∈ l, p c = true) : l.takeWhile p = l := by
  induction l with
  | nil => rfl
  | cons a t ih =>
    rw [List.takeWhile_cons, h a (by simp)]
    simp [ih fun c hc => h c (by simp [hc])]

theorem listTrim_eq_self {l : List Char} (h : ∀ c ∈ l, isJsWs c = false) :
    listTrim l = l := by
  rw [listTrim, dropWhile_eq_self_of_all h,
    dropWhile_eq_self_of_all (fun c hc => h c (List.mem_reverse.mp hc)), List.reverse_reverse]

theorem digit_not_ws {c : Char} (h : c.isDigit = true) : isJsWs c = false := by
  rw [isJsWs]
  have hs : ¬c = ' ' := fun he => absurd (he ▸ h) (by decide)
  have ht : ¬c = '\t' := fun he => absurd (he ▸ h) (by decide)
  have hn : ¬c = '\n' := fun he => absurd (he ▸ h) (by decide)
  have hr : ¬c = '\r' := fun he => absurd (he ▸ h) (by decide)
  have hv : ¬c = '\x0b' := fun he => absurd (he ▸ h) (by decide)
  have hf : ¬c = '\x0c' := fun he => absurd (he ▸ h) (by decide)
  simp [hs, ht, hn, hr, hv, hf]

theorem digit_ne_slash {c : Char} (h : c.isDigit = true) : ¬c = '/' :=
  fun he => absurd (he ▸ h) (by decide)

theorem digit_ne_minus {c : Char} (h : c.isDigit = true) : ¬c = '-' :=
  fun he => absurd (he ▸ h) (by decide)

theorem digit_ne_plus {c : Char} (h : c.isDigit = true) : ¬c = '+' :=
  fun he => absurd (he ▸ h) (by decide)

theorem splitSlash_ddmmyyyy {a b c d e f g h : Char} (ha : ¬a = '/') (hb : ¬b = '/')
    (hc : ¬c = '/') (hd : ¬d = '/') (he : ¬e = '/') (hf : ¬f = '/') (hg : ¬g = '/')
    (hh : ¬h = '/') :
    splitSlash [a, b, '/', c, d, '/', e, f, g, h] = [[a, b], [c, d], [e, f, g, h]] := by
  simp [splitSlash, ha, hb, hc, hd, he, hf, hg, hh]

theorem parseIntJS_digits {ds : List Char} (h1 : ds ≠ [])
    (h2 : ∀ c ∈ ds, c.isDigit = true) : parseIntJS ds = some ((digitsVal ds : ℕ) : ℤ) := by
  simp only [parseIntJS]
  have hws : ds.dropWhile isJsWs = ds :=
    dropWhile_eq_self_of_all fun c hc => digit_not_ws (h2 c hc)
  rw [hws]
  cases ds with
  | nil => exact absurd rfl h1
  | cons a t =>
    have hda := h2 a (by simp)
    rw [show dropSignJS (a :: t) = a :: t by
      simp [dropSignJS, digit_ne_minus hda, digit_ne_plus hda]]
    rw [takeWhile_eq_self_of_all h2]
    rw [show signOfJS (a :: t) = 1 by simp [signOfJS, digit_ne_minus hda]]
    simp

theorem parseDate_ok_iff_accepted (s : String) : (parseDate s).isOk = dateAccepted s := by
  rw [parseDate, dateAccepted]
  rcases splitSlash (jsTrim s).data with - | ⟨a, - | ⟨b, - | ⟨c, - | ⟨d, t⟩⟩⟩⟩
  · rfl
  · rfl
  · rfl
  · show (match parseIntJS a, parseIntJS b, parseIntJS c with
        | some day, some month, some year =>
          (Except.ok (padStart (toString year) 4 '0' ++ "-" ++
            padStart (toString month) 2 '0' ++ "-" ++ padStart (toString day) 2 '0') :
              Except String String)
        | _, _, _ => Except.error ("Invalid date parts: " ++ s)).isOk =
      ((parseIntJS a).isSome && (parseIntJS b).isSome && (parseIntJS c).isSome)
    cases parseIntJS a <;> cases parseIntJS b <;> cases parseIntJS c <;> rfl
  · rfl

theorem parseDate_on_shape (s : String) (h : isDDMMYYYYShape s = true) :
    parseDate s = .ok (canonicalOfShape s) := by
  rw [isDDMMYYYYShape] at h
  rcases hdata : s.data with - | ⟨a, - | ⟨b, - | ⟨s1, - | ⟨c, - | ⟨d, - | ⟨s2, - | ⟨e,
    - | ⟨f, - | ⟨g, - | ⟨hh, - | ⟨x, t⟩⟩⟩⟩⟩⟩⟩⟩⟩⟩⟩ <;> rw [hdata] at h <;>
    first
    | exact Bool.noConfusion h
    | skip
  simp only [Bool.and_eq_true, decide_eq_true_eq] at h
  obtain ⟨⟨⟨⟨⟨⟨⟨⟨⟨hda, hdb⟩, hs1⟩, hdc⟩, hdd⟩, hs2⟩, hde⟩, hdf⟩, hdg⟩, hdh⟩ := h
  subst hs1
  subst hs2
  have hall : ∀ ch ∈ s.data, isJsWs ch = false := by
    rw [hdata]
    intro ch hch
    simp only [List.mem_cons, List.not_mem_nil, or_false] at hch
    rcases hch with rfl | rfl | rfl | rfl | rfl | rfl | rfl | rfl | rfl | rfl
    all_goals first
      | decide
      | exact digit_not_ws (by assumption)
  have htrim : jsTrim s = ⟨s.data⟩ := by rw [jsTrim, listTrim_eq_self hall]
  have hab : ∀ ch ∈ [a, b], ch.isDigit = true := by
    intro ch hch
    simp only [List.mem_cons, List.not_mem_nil, or_false] at hch
    rcases hch with rfl | rfl <;> assumption
  have hcd : ∀ ch ∈ [c, d], ch.isDigit = true := by
    intro ch hch
    simp only [List.mem_cons, List.not_mem_nil, or_false] at hch
    rcases hch with rfl | rfl <;> assumption
  have hefgh : ∀ ch ∈ [e, f, g, hh], ch.isDigit = true := by
    intro ch hch
    simp only [List.mem_cons, List.not_mem_nil, or_false] at hch
    rcases hch with rfl | rfl | rfl | rfl <;> assumption
  rw [parseDate, htrim, canonicalOfShape, hdata]
  simp only [splitSlash_ddmmyyyy (digit_ne_slash hda) (digit_ne_slash hdb)
    (digit_ne_slash hdc) (digit_ne_slash hdd) (digit_ne_slash hde) (digit_ne_slash hdf)
    (digit_ne_slash hdg) (digit_ne_slash hdh),
    parseIntJS_digits (by simp) hab, parseIntJS_digits (by simp) hcd,
    parseIntJS_digits (by simp) hefgh]

theorem parseMoney_malformed_zero (v : String) (h : moneyMalformed v = true) :
    parseMoney (some v) = 0 := by
  rw [moneyMalformed] at h
  rw [parseMoney]
  by_cases hv : v = ""
  · rw [if_pos hv]
  · rw [if_neg hv]
    simp only [Bool.or_eq_true, List.isEmpty_iff, Option.isNone_iff_eq_none] at h
    by_cases hc : (⟨v.data.filter fun c => !(c = '$' || c = ',' || isJsWs c)⟩ : String) = ""
    · rw [if_pos hc]
    · rw [if_neg hc]
      rcases h with h | h
      · exact absurd (congrArg String.mk h) hc
      · rw [h]

theorem catFold_nodes (l : List (String × ℚ)) (init : List SankeyNode × List (String × ℕ)) :
    (l.foldl (fun st p => (st.1 ++ [(⟨p.1⟩ : SankeyNode)], mset st.2 p.1 st.1.length))
        init).1 = init.1 ++ l.map fun p => ⟨p.1⟩ := by
  induction l generalizing init with
  | nil => simp
  | cons a t ih => rw [List.foldl_cons, ih]; simp

theorem catFold_keys (l : List (String × ℚ)) (init : List SankeyNode × List (String × ℕ))
    (k : String) :
    (k ∈ (l.foldl (fun st p => (st.1 ++ [(⟨p.1⟩ : SankeyNode)], mset st.2 p.1 st.1.length))
        init).2.map Prod.fst) ↔ k ∈ init.2.map Prod.fst ∨ k ∈ l.map Prod.fst := by
  induction l generalizing init with
  | nil => simp
  | cons a t ih =>
    rw [List.foldl_cons, ih]
    simp only [mem_mkeys_mset, List.map_cons, List.mem_cons]
    tauto

theorem merchantInnerFold (base : List String) (baseNodes : List SankeyNode)
    (ms : List (String × ℚ)) (st : List SankeyNode × List (String × ℕ)) (acc : List String)
    (hnodes : st.1 = baseNodes ++ acc.map fun m => (⟨m⟩ : SankeyNode))
    (hkeys : ∀ k, k ∈ st.2.map Prod.fst ↔ k ∈ base ++ acc) :
    (ms.foldl (fun st q => sankeyMerchantStep st q.1) st).1 =
      baseNodes ++ (ms.foldl (fun acc q => if q.1 ∈ base ++ acc then acc else acc ++ [q.1])
        acc).map (fun m => (⟨m⟩ : SankeyNode)) ∧
    ∀ k, (k ∈ (ms.foldl (fun st q => sankeyMerchantStep st q.1) st).2.map Prod.fst) ↔
      k ∈ base ++ ms.foldl (fun acc q => if q.1 ∈ base ++ acc then acc else acc ++ [q.1]) acc := by
  induction ms generalizing st acc with
  | nil => exact ⟨hnodes, hkeys⟩
  | cons q t ih =>
    rw [List.foldl_cons, List.foldl_cons]
    by_cases hq : q.1 ∈ base ++ acc
    · rw [if_pos hq]
      have hstep : sankeyMerchantStep st q.1 = st := by
        rw [sankeyMerchantStep, if_pos ((mhas_iff_mem_keys st.2 q.1).mpr ((hkeys q.1).mpr hq))]
      rw [hstep]
      exact ih st acc hnodes hkeys
    · rw [if_neg hq]
      have hstep : sankeyMerchantStep st q.1 =
          (st.1 ++ [⟨q.1⟩], mset st.2 q.1 st.1.length) := by
        rw [sankeyMerchantStep,
          if_neg (fun hc => hq ((hkeys q.1).mp ((mhas_iff_mem_keys st.2 q.1).mp hc)))]
      rw [hstep]
      refine ih _ (acc ++ [q.1]) ?_ ?_
      · simp [hnodes]
      · intro k
        rw [mem_mkeys_mset, hkeys k]
        simp only [List.mem_append, List.mem_cons, List.mem_singleton, List.not_mem_nil,
          or_false]
        tauto

theorem merchantOuterFold (base : List String) (baseNodes : List SankeyNode)
    (entries : List (String × List (String × ℚ))) (st : List SankeyNode × List (String × ℕ))
    (acc : List String)
    (hnodes : st.1 = baseNodes ++ acc.map fun m => (⟨m⟩ : SankeyNode))
    (hkeys : ∀ k, k ∈ st.2.map Prod.fst ↔ k ∈ base ++ acc) :
    (entries.foldl (fun st p => p.2.foldl (fun st q => sankeyMerchantStep st q.1) st) st).1 =
      baseNodes ++ (entries.foldl (fun acc p => p.2.foldl
        (fun acc q => if q.1 ∈ base ++ acc then acc else acc ++ [q.1]) acc) acc).map
          (fun m => (⟨m⟩ : SankeyNode)) ∧
    ∀ k, (k ∈ (entries.foldl (fun st p => p.2.foldl
        (fun st q => sankeyMerchantStep st q.1) st) st).2.map Prod.fst) ↔
      k ∈ base ++ entries.foldl (fun acc p => p.2.foldl
        (fun acc q => if q.1 ∈ base ++ acc then acc else acc ++ [q.1]) acc) acc := by
  induction entries generalizing st acc with
  | nil => exact ⟨hnodes, hkeys⟩
  | cons p t ih =>
    rw [List.foldl_cons, List.foldl_cons]
    obtain ⟨h1, h2⟩ := merchantInnerFold base baseNodes p.2 st acc hnodes hkeys
    exact ih _ _ h1 h2

/-- C5 counterexample: with categories first seen in the order `B`, `A`, the
code emits the merchant nodes in category first-seen order (`bm` before `am`),
not in the claimed sorted-category order (`am` before `bm`). -/
theorem sankey_merchant_nodes_not_sorted :
    (buildSankeyData sankeyExampleTxs "t").nodes ≠ sankeyNodesClaim sankeyExampleTxs := by
  decide

/-- C5 (amended): the node sequence is the root `Total Spend`, then one node
per category sorted lexicographically, then one node per distinct merchant in
first-seen order: iterating the merchant-totals map in the order categories
first appear in the filtered transactions and, within each category, merchants
in first-seen order, skipping names that already have a node. -/
theorem sankey_node_order (transactions : List NormalizedTransaction) (now : String) :
    (buildSankeyData transactions now).nodes =
      ⟨"Total Spend"⟩ ::
        ((sortedSpendCategories transactions).map fun p => (⟨p.1⟩ : SankeyNode)) ++
        ((sankeyMerchantNamesInOrder transactions).map fun m => (⟨m⟩ : SankeyNode)) := by
  show sankeyNodes transactions = _
  rw [sankeyNodes, sankeyAfterMerchants, sankeyMerchantNamesInOrder]
  have hcat1 : (sankeyAfterCategories transactions).1 =
      ⟨"Total Spend"⟩ :: (sortedSpendCategories transactions).map fun p => ⟨p.1⟩ := by
    rw [sankeyAfterCategories]
    exact catFold_nodes (sortedSpendCategories transactions) sankeyInit
  have hcat2 : ∀ k, k ∈ (sankeyAfterCategories transactions).2.map Prod.fst ↔
      k ∈ ("Total Spend" :: (sortedSpendCategories transactions).map Prod.fst) ++ [] := by
    intro k
    rw [sankeyAfterCategories]
    rw [catFold_keys (sortedSpendCategories transactions) sankeyInit]
    simp [sankeyInit]
  obtain ⟨h1, h2⟩ := merchantOuterFold
    ("Total Spend" :: (sortedSpendCategories transactions).map Prod.fst)
    (⟨"Total Spend"⟩ :: (sortedSpendCategories transactions).map fun p => ⟨p.1⟩)
    (merchantTotalsByCategory transactions) (sankeyAfterCategories transactions) []
    (by rw [hcat1]; simp) hcat2
  rw [h1]

/-- C7 counterexample: `"1a/2b/2020"` does not have the `DD/MM/YYYY` shape,
yet date parsing does not throw — `parseInt` accepts the leading digits of
each part, so the parser happily returns `"2020-02-01"`. -/
theorem parseDate_accepts_malformed_shape :
    isDDMMYYYYShape "1a/2b/2020" = false ∧
      parseDate "1a/2b/2020" = .ok "2020-02-01" := by decide

/-- C7 (amended): date parsing fails exactly when the trimmed input does not
split on `/` into three parts each carrying a leading integer; every strict
`DD/MM/YYYY` input succeeds with the canonical padded `YYYY-MM-DD` rendering;
money parsing is total, and malformed or empty money strings (and missing
values) are coerced to `0`. -/
theorem parsing_error_discipline (s v : String) :
    (parseDate s).isOk = dateAccepted s ∧
    (isDDMMYYYYShape s = true → parseDate s = .ok (canonicalOfShape s)) ∧
    (moneyMalformed v = true → parseMoney (some v) = 0) ∧
    parseMoney none = 0 :=
  ⟨parseDate_ok_iff_accepted s, parseDate_on_shape s, parseMoney_malformed_zero v, rfl⟩

/-- C7 witness: the amended statement at a well-shaped date and a malformed
money string. -/
theorem parsing_error_discipline_witness :
    isDDMMYYYYShape "05/03/2026" = true ∧
      parseDate "05/03/2026" = .ok (canonicalOfShape "05/03/2026") ∧
      moneyMalformed "abc" = true ∧ parseMoney (some "abc") = 0 :=
  ⟨by decide, (parsing_error_discipline "05/03/2026" "abc").2.1 (by decide), by decide,
    (parsing_error_discipline "05/03/2026" "abc").2.2.1 (by decide)⟩

/-- C6: the sum of the root-to-category link values of the Spend Flow-Graph —
the links leaving the root node at index 0 — differs from the summary's
rounded total spend by at most `0.01` times the number of categories (each
side being independently rounded to two decimals). Stated for transaction
sets with no spend category literally named `Total Spend`, whose node the
root's index lookup would be redirected to. -/
theorem sankey_category_link_conservation (transactions : List NormalizedTransaction)
    (now : String)
    (h : "Total Spend" ∉ (spendCategoryTotals transactions).map Prod.fst) :
    |((((buildSankeyData transactions now).links.filter fun lk => lk.source == 0).map
        SankeyLink.value).sum) - (buildSankeyData transactions now).summary.totalSpend| ≤
      ((spendCategoryTotals transactions).length : ℚ) / 100 := by
  have hsortmem : ∀ p ∈ sortedSpendCategories transactions,
      p ∈ spendCategoryTotals transactions :=
    fun p hp => (stableSortBy_perm _ _).mem_iff.mp hp
  have hkey : ∀ p ∈ sortedSpendCategories transactions, ¬p.1 = "Total Spend" := by
    intro p hp he
    exact h (he ▸ List.mem_map_of_mem Prod.fst (hsortmem p hp))
  have hcatinv := catFold_rooted (sortedSpendCategories transactions) sankeyInit hkey
    (by decide) ⟨[], rfl, by simp⟩
  have hfinal := merchFold_rooted (merchantTotalsByCategory transactions)
    (sankeyAfterCategories transactions) hcatinv.1 hcatinv.2
  have hrooted : rootedIdx (sankeyNodeIndex transactions) := hfinal.2
  have hroot : mget? (sankeyNodeIndex transactions) "Total Spend" = some 0 :=
    rooted_get_root hrooted
  have hcats : ∀ p ∈ sortedSpendCategories transactions,
      ∃ j, mget? (sankeyNodeIndex transactions) p.1 = some j ∧ 1 ≤ j := by
    intro p hp
    have hcatkeys : p.1 ∈ (sankeyAfterCategories transactions).2.map Prod.fst := by
      rw [sankeyAfterCategories]
      rw [catFold_keys (sortedSpendCategories transactions) sankeyInit]
      exact Or.inr (List.mem_map_of_mem Prod.fst hp)
    have hmemkeys : p.1 ∈ (sankeyNodeIndex transactions).map Prod.fst :=
      merchFold_keys_mono (merchantTotalsByCategory transactions)
        (sankeyAfterCategories transactions) p.1 hcatkeys
    have hsome : (mget? (sankeyNodeIndex transactions) p.1).isSome = true :=
      (mhas_iff_mem_keys _ _).mpr hmemkeys
    obtain ⟨j, hj⟩ := Option.isSome_iff_exists.mp hsome
    exact ⟨j, hj, rooted_get_ne hrooted (hkey p hp) hj⟩
  have hlinks := linkFold_filter_sum (sortedSpendCategories transactions)
    (sankeyNodeIndex transactions) (merchantTotalsByCategory transactions) [] hroot hcats
  show |(((sankeyLinks transactions).filter fun lk => lk.source == 0).map
      SankeyLink.value).sum - round2 (sankeyTotalSpend transactions)| ≤ _
  rw [sankeyLinks, hlinks]
  simp only [List.filter_nil, List.map_nil, List.sum_nil, zero_add]
  have hsum1 : ((sortedSpendCategories transactions).map fun p => round2 p.2).sum =
      (((spendCategoryTotals transactions).map Prod.snd).map round2).sum := by
    rw [sortedSpendCategories]
    have hperm := ((stableSortBy_perm (fun a b => strLe a.1 b.1)
      (spendCategoryTotals transactions)).map fun p => round2 p.2).sum_eq
    rw [hperm, List.map_map]
    rfl
  have hsum2 : sankeyTotalSpend transactions =
      ((spendCategoryTotals transactions).map Prod.snd).sum := by
    rw [sankeyTotalSpend, foldl_add_pair_eq_sum, zero_add]
  rw [hsum1, hsum2]
  have hb := round2_sum_bound ((spendCategoryTotals transactions).map Prod.snd)
  rw [List.length_map] at hb
  exact hb

/-- C6 witness: the conservation bound at a concrete two-category input. -/
theorem sankey_category_link_conservation_witness :
    "Total Spend" ∉ (spendCategoryTotals sankeyExampleTxs).map Prod.fst ∧
    |((((buildSankeyData sankeyExampleTxs "t").links.filter fun lk => lk.source == 0).map
        SankeyLink.value).sum) - (buildSankeyData sankeyExampleTxs "t").summary.totalSpend| ≤
      ((spendCategoryTotals sankeyExampleTxs).length : ℚ) / 100 :=
  ⟨by decide, sankey_category_link_conservation sankeyExampleTxs "t" (by decide)⟩

end PersonalSpend